import Mathlib

/-!
Verification of the simulation core of the `tetris-web` repository.

The definitions below are shallow embeddings of the Python sources
`src/tetris/board.py`, `src/tetris/tetromino.py`, `src/tetris/game.py`,
`src/tetris/battle_game.py` and `src/tetris/constants.py`.

Conventions used throughout:
* `None` cells of the Python grid become `Option Color` with `none`;
* Python `int` coordinates become `Int`, list indices become `Nat`;
* Python `float` timers become `Rat` (the lock/fall logic only adds,
  zeroes and compares timers, so rationals model it exactly);
* the pseudo-random choices of the source (`random.randint`,
  `random.choice`, `get_random_tetromino`, power-up rolls) are passed in
  as explicit oracle parameters, so every function is deterministic in
  its arguments;
* imperative `while` loops are embedded with an explicit fuel argument;
  the theorems discharge the fuel with an explicit termination bound;
* the "ghost mode" branches of game.py call `Board.is_within_bounds`,
  a method that does not exist in board.py (it would raise
  `AttributeError` at run time), so the embeddings cover the ordinary
  non-ghost paths, which is all the claims are about.
-/

/-- RGB colour triple, as stored in the Python grid. -/
abbrev Color := Nat × Nat × Nat

/-- One grid row: a list of optionally-occupied cells. -/
abbrev Row := List (Option Color)

/-- The gray colour used for garbage blocks (`COLOR_GRAY` in constants.py). -/
def COLOR_GRAY : Color := (180, 180, 190)

/-- An empty row of width `w` (`[None for _ in range(width)]`). -/
def emptyRow (w : Nat) : Row := List.replicate w none

/-- A row is full when every cell is occupied
(`all(cell is not None for cell in row)` in board.py). -/
def rowFull (r : Row) : Bool := r.all (fun c => c.isSome)

/-- Number of full rows of a grid. -/
def countFull (g : List Row) : Nat := g.countP (fun r => rowFull r)

/-- `Board` from board.py: width, height, and the grid of colour cells. -/
structure Board where
  width : Nat
  height : Nat
  grid : List Row
  deriving Repr, DecidableEq

/-- Board well-formedness: the grid has `height` rows, each of width `width`.
This is the construction invariant of `Board.__init__`. -/
def Board.WF (bd : Board) : Prop :=
  bd.grid.length = bd.height ∧ ∀ r ∈ bd.grid, r.length = bd.width

instance (bd : Board) : Decidable bd.WF := by
  unfold Board.WF; infer_instance

/-- A fresh all-empty board, as built by `Board.__init__`. -/
def Board.create (w h : Nat) : Board :=
  { width := w, height := h, grid := List.replicate h (emptyRow w) }

/-- `Block` from tetromino.py: rotation-state matrices, colour, grid
position and rotation index. Matrix entries are the Python ints (`1`/`0`). -/
structure Block where
  shape : List (List (List Nat))
  color : Color
  x : Int
  y : Int
  rotation : Nat
  deriving Repr, DecidableEq

/-- `Block.get_cells`: absolute coordinates of the filled cells of the
current rotation state. -/
def Block.get_cells (b : Block) : List (Int × Int) :=
  let current_shape := b.shape.getD b.rotation []
  (current_shape.enum.map (fun rr =>
    rr.2.enum.filterMap (fun cc =>
      if cc.2 ≠ 0 then some (b.x + cc.1, b.y + rr.1) else none))).flatten

/-- `Block.rotate_cw`: advance the rotation index modulo the state count. -/
def Block.rotate_cw (b : Block) : Block :=
  { b with rotation := (b.rotation + 1) % b.shape.length }

/-- `Block.rotate_ccw`: retreat the rotation index modulo the state count
(Python's `%` on `rotation - 1` is non-negative, matching `+ length - 1`). -/
def Block.rotate_ccw (b : Block) : Block :=
  { b with rotation := (b.rotation + b.shape.length - 1) % b.shape.length }

/-- Translate a block `m` rows downwards. -/
def dropBy (b : Block) (m : Nat) : Block := { b with y := b.y + m }

/-- Cell lookup used by `is_valid_position`; only evaluated on in-range
indices (the source indexes `self.grid[y][x]` directly). -/
def Board.cellAt (bd : Board) (x y : Int) : Option Color :=
  (bd.grid.getD y.toNat []).getD x.toNat none

/-- Validity of one cell of a candidate block position, as tested inside
the loop of `Board.is_valid_position`. -/
def Board.cellOK (bd : Board) (x y : Int) : Bool :=
  if x < 0 ∨ (bd.width : Int) ≤ x ∨ (bd.height : Int) ≤ y then false
  else if 0 ≤ y then (bd.cellAt x y).isNone
  else true

/-- `Board.is_valid_position` from board.py: every cell must be inside the
horizontal bounds and above-or-inside the bottom, and cells with `y ≥ 0`
must land on an unoccupied grid cell (cells with `y < 0` are allowed). -/
def Board.is_valid_position (bd : Board) (blk : Block) : Bool :=
  blk.get_cells.all (fun c => bd.cellOK c.1 c.2)

/-- `Board.place_block`: copy every cell of the block with in-range
coordinates into the grid as the block's colour. -/
def Board.place_block (bd : Board) (blk : Block) : Board :=
  { bd with grid := blk.get_cells.foldl (fun g c =>
      if 0 ≤ c.2 ∧ c.2 < (bd.height : Int) ∧ 0 ≤ c.1 ∧ c.1 < (bd.width : Int) then
        g.set c.2.toNat ((g.getD c.2.toNat []).set c.1.toNat (some blk.color))
      else g) bd.grid }

/-- The `while y >= 0` loop of `Board.clear_lines`, with explicit fuel.
`yy` stands for `y + 1`, so `yy = 0` is the Python exit condition `y < 0`.
A full row at index `yy - 1` is deleted, an empty row is inserted at the
top, and the same index is examined again; otherwise the scan moves up. -/
def clearLinesAux (w : Nat) : Nat → List Row → Nat → Nat → List Row × Nat
  | 0, g, _, c => (g, c)
  | _ + 1, g, 0, c => (g, c)
  | fuel + 1, g, yy + 1, c =>
    match g[yy]? with
    | none => (g, c)
    | some r =>
      if rowFull r then clearLinesAux w fuel (emptyRow w :: g.eraseIdx yy) (yy + 1) (c + 1)
      else clearLinesAux w fuel g yy c

/-- `Board.clear_lines`: scan from the bottom row upwards, removing full
rows and inserting empty rows at the top; returns the new board and the
number of rows cleared. The fuel `2 * height + 1` dominates the loop's
iteration count (at most `height` index decrements plus at most `height`
removals). -/
def Board.clear_lines (bd : Board) : Board × Nat :=
  let p := clearLinesAux bd.width (2 * bd.height + 1) bd.grid bd.height 0
  ({ bd with grid := p.1 }, p.2)

/-- One iteration of the `clear_bottom_rows` loop: pop the bottom row,
count its occupied cells, push an empty row on top. -/
def clearBottomAux (w : Nat) : Nat → List Row → Nat → List Row × Nat
  | 0, g, c => (g, c)
  | n + 1, g, c =>
    let bottom := g.getLast?.getD []
    clearBottomAux w n (emptyRow w :: g.dropLast) (c + bottom.countP (fun cc => cc.isSome))

/-- `Board.clear_bottom_rows`: clear the bottom `min num_rows height` rows,
returning the board and the number of occupied cells removed. -/
def Board.clear_bottom_rows (bd : Board) (num_rows : Nat) : Board × Nat :=
  let p := clearBottomAux bd.width (min num_rows bd.height) bd.grid 0
  ({ bd with grid := p.1 }, p.2)

/-- The square of offsets `(dy, dx) ∈ [-radius, radius]²` scanned by
`Board.clear_area`, in the source's row-major order. -/
def areaOffsets (radius : Nat) : List (Int × Int) :=
  ((List.range (2 * radius + 1)).map (fun dy => (dy : Int) - radius)).flatMap
    (fun dy => ((List.range (2 * radius + 1)).map (fun dx => (dx : Int) - radius)).map
      (fun dx => (dy, dx)))

/-- `Board.clear_area`: clear every occupied cell in the square around
`(center_x, center_y)`, counting the cells cleared. -/
def Board.clear_area (bd : Board) (center_x center_y : Int) (radius : Nat) : Board × Nat :=
  let p := (areaOffsets radius).foldl (fun (gc : List Row × Nat) d =>
    let x := center_x + d.2
    let y := center_y + d.1
    if 0 ≤ x ∧ x < (bd.width : Int) ∧ 0 ≤ y ∧ y < (bd.height : Int) then
      if ((gc.1.getD y.toNat []).getD x.toNat none).isSome then
        (gc.1.set y.toNat ((gc.1.getD y.toNat []).set x.toNat none), gc.2 + 1)
      else gc
    else gc) (bd.grid, 0)
  ({ bd with grid := p.1 }, p.2)

/-! ### Constants (constants.py) -/

def INITIAL_FALL_SPEED : Rat := 1
def LOCK_DELAY : Rat := 1 / 2
def SPEED_INCREASE_PER_LEVEL : Rat := 9 / 10
def SCORE_SINGLE_LINE : Nat := 100
def SCORE_DOUBLE_LINE : Nat := 300
def SCORE_TRIPLE_LINE : Nat := 500
def SCORE_QUAD_LINE : Nat := 800
def SCORE_SOFT_DROP : Nat := 1
def SCORE_HARD_DROP : Nat := 2
def LINES_PER_LEVEL : Nat := 10

/-- The `GARBAGE_LINES` lookup table with the `.get(lines, 0)` default. -/
def GARBAGE_LINES : Nat → Nat
  | 1 => 0
  | 2 => 1
  | 3 => 2
  | 4 => 4
  | _ => 0

/-- Battle power-up / debuff kinds (`BattlePowerUpType`). -/
inductive BattlePowerUpType where
  | ink
  | speed_up
  | reverse
  | fog
  | earthquake
  deriving Repr, DecidableEq, BEq

/-! ### Battle mode (battle_game.py) -/

/-- `BattlePlayer`: one player's mutable state in battle mode. The
`active_debuffs` dict becomes an association list of debuff/expiry pairs. -/
structure BattlePlayer where
  board : Board
  score : Int
  lines : Nat
  level : Nat
  current_block : Option Block
  next_block : Option Block
  hold_block : Option Block
  can_hold : Bool
  fall_timer : Rat
  lock_timer : Rat
  is_on_ground : Bool
  powerups : List BattlePowerUpType
  active_debuffs : List (BattlePowerUpType × Rat)
  pending_garbage : Nat
  is_dead : Bool
  deriving Repr, DecidableEq

namespace BattleGame

/-- `BattlePlayer.is_controls_reversed`: membership of the REVERSE key in
the active-debuff dict. -/
def is_controls_reversed (p : BattlePlayer) : Bool :=
  p.active_debuffs.any (fun d => d.1 == BattlePowerUpType.reverse)

/-- A garbage row: fully occupied gray cells except one gap column. -/
def garbageRow (w : Nat) (gap : Nat) : Row :=
  (List.range w).map (fun x => if x = gap then none else some COLOR_GRAY)

/-- `BattleGame._add_garbage_lines`: shift all rows up by `count`
(row `y` is overwritten with row `y + count` while it exists), then fill
the bottom `count` rows with garbage rows whose gap columns come from the
random oracle `gaps` (the source draws `random.randint(0, width-1)` per
row). -/
def add_garbage_lines (p : BattlePlayer) (count : Nat) (gaps : Nat → Nat) : BattlePlayer :=
  if count = 0 then p
  else
    let h := p.board.height
    let shifted := (List.range h).map (fun y =>
      if y + count < h then p.board.grid.getD (y + count) [] else p.board.grid.getD y [])
    let final := (List.range h).map (fun y =>
      if h - count ≤ y then garbageRow p.board.width (gaps y) else shifted.getD y [])
    { p with board := { p.board with grid := final } }

/-- `BattleGame._spawn_block`: promote the next block (or the oracle's
`fresh` block when absent), maybe collect a rolled power-up, draw a new
next block `nn`, centre the current block horizontally from the width of
its current rotation matrix, reset its rotation, and check the spawn
position; on success reset the timers, ground flag and hold permission. -/
def spawn_block (p : BattlePlayer) (puRoll : Option BattlePowerUpType)
    (fresh nn : Block) : BattlePlayer × Bool :=
  let cur0 := p.next_block.getD fresh
  let pu := match puRoll with
    | some pw => if p.powerups.length < 2 then p.powerups ++ [pw] else p.powerups
    | none => p.powerups
  let current_shape := cur0.shape.getD cur0.rotation []
  let block_width := (current_shape.getD 0 []).length
  let cur := { cur0 with x := Int.fdiv ((p.board.width : Int) - block_width) 2,
                         y := 0, rotation := 0 }
  let p1 := { p with powerups := pu, current_block := some cur, next_block := some nn }
  if ¬ p1.board.is_valid_position cur then
    ({ p1 with is_dead := true }, false)
  else
    ({ p1 with fall_timer := 0, lock_timer := 0, is_on_ground := false, can_hold := true }, true)

/-- The battle `line_scores` dict with the `.get(lines, QUAD)` default. -/
def line_scores : Nat → Nat
  | 1 => SCORE_SINGLE_LINE
  | 2 => SCORE_DOUBLE_LINE
  | 3 => SCORE_TRIPLE_LINE
  | _ => SCORE_QUAD_LINE

/-- `BattleGame._lock_block`: place the current block, clear lines, update
score/lines/level, queue garbage for the opponent, inject the player's own
pending garbage (after placement and clearing, before the next spawn), and
spawn the next block. -/
def lock_block (p opp : BattlePlayer) (gaps : Nat → Nat)
    (puRoll : Option BattlePowerUpType) (fresh nn : Block) : BattlePlayer × BattlePlayer :=
  match p.current_block with
  | none => (p, opp)
  | some blk =>
    let q := (p.board.place_block blk).clear_lines
    let lc := q.2
    let score' := if 0 < lc then p.score + (line_scores lc : Int) * (p.level : Int) else p.score
    let lines' := if 0 < lc then p.lines + lc else p.lines
    let level' := if 0 < lc ∧ p.level * LINES_PER_LEVEL ≤ lines' then p.level + 1 else p.level
    let oppPending := if 0 < lc ∧ 0 < GARBAGE_LINES lc
      then opp.pending_garbage + GARBAGE_LINES lc else opp.pending_garbage
    let p2 := { p with board := q.1, score := score', lines := lines', level := level' }
    let p3 := if 0 < p2.pending_garbage then
        { (add_garbage_lines p2 p2.pending_garbage gaps) with pending_garbage := 0 }
      else p2
    ((spawn_block p3 puRoll fresh nn).1, { opp with pending_garbage := oppPending })

/-- `BattleGame._move_block`: move the current block (horizontal moves are
mirrored under the REVERSE debuff), reverting on collision; after a
successful horizontal move, re-check the ground and reset the lock timer
when the block can fall again; a successful downward move resets the lock
timer. -/
def move_block (p : BattlePlayer) (dx dy : Int) : BattlePlayer × Bool :=
  match p.current_block with
  | none => (p, false)
  | some blk =>
    let dx := if is_controls_reversed p ∧ dx ≠ 0 then -dx else dx
    let moved := { blk with x := blk.x + dx, y := blk.y + dy }
    if ¬ p.board.is_valid_position moved then (p, false)
    else
      let p1 := { p with current_block := some moved }
      let p2 := if dx ≠ 0 then
          if p1.board.is_valid_position { moved with y := moved.y + 1 } then
            { p1 with is_on_ground := false, lock_timer := 0 }
          else p1
        else p1
      let p3 := if 0 < dy then { p2 with lock_timer := 0 } else p2
      (p3, true)

/-- Apply a wall-kick offset to a block. -/
def applyKick (base : Block) (k : Int × Int) : Block :=
  { base with x := base.x + k.1, y := base.y + k.2 }

/-- The battle wall-kick list, in source order. -/
def KICKS_BATTLE : List (Int × Int) :=
  [(0, 0), (-1, 0), (1, 0), (-2, 0), (2, 0), (0, -1), (0, -2)]

/-- `BattleGame._rotate_block`: rotate the current block and accept the
first kick offset yielding a valid position; restore the original
rotation and position when every kick fails. -/
def rotate_block (p : BattlePlayer) (clockwise : Bool) : BattlePlayer × Bool :=
  match p.current_block with
  | none => (p, false)
  | some blk =>
    let rotated := if clockwise then blk.rotate_cw else blk.rotate_ccw
    match KICKS_BATTLE.find? (fun k => p.board.is_valid_position (applyKick rotated k)) with
    | some k => ({ p with current_block := some (applyKick rotated k), lock_timer := 0 }, true)
    | none => (p, false)

/-- The `while is_valid` loop of `BattleGame._hard_drop`: keep moving the
block down while its position is valid, counting the iterations. -/
def hardDropAux (bd : Board) : Nat → Block → Nat → Block × Nat
  | 0, blk, d => (blk, d)
  | fuel + 1, blk, d =>
    if bd.is_valid_position blk then hardDropAux bd fuel (dropBy blk 1) (d + 1)
    else (blk, d)

/-- `BattleGame._hard_drop`: run the drop loop, step one row back up,
credit `drop_distance * SCORE_HARD_DROP`, and lock immediately. -/
def hard_drop (p opp : BattlePlayer) (fuel : Nat) (gaps : Nat → Nat)
    (puRoll : Option BattlePowerUpType) (fresh nn : Block) : BattlePlayer × BattlePlayer :=
  match p.current_block with
  | none => (p, opp)
  | some blk =>
    let q := hardDropAux p.board fuel blk 0
    let fb := { q.1 with y := q.1.y - 1 }
    let d : Int := (q.2 : Int) - 1
    lock_block { p with current_block := some fb,
                        score := p.score + d * (SCORE_HARD_DROP : Int) } opp gaps puRoll fresh nn

/-- `BattleGame._hold_block`: swap with the held block (re-centred at
rotation 0), or store the current block and spawn; hold then becomes
unavailable. -/
def hold_block (p : BattlePlayer) (puRoll : Option BattlePowerUpType)
    (fresh nn : Block) : BattlePlayer :=
  if ¬ p.can_hold then p
  else
    match p.current_block with
    | none => p
    | some cur =>
      match p.hold_block with
      | some hb =>
        let shape0 := hb.shape.getD 0 []
        let bw := (shape0.getD 0 []).length
        let newCur := { hb with rotation := 0,
                                x := Int.fdiv ((p.board.width : Int) - bw) 2, y := 0 }
        { p with current_block := some newCur,
                 hold_block := some { cur with rotation := 0 }, can_hold := false }
      | none =>
        let p1 := { p with hold_block := some cur }
        let p2 := (spawn_block p1 puRoll fresh nn).1
        { p2 with hold_block := p2.hold_block.map (fun h => { h with rotation := 0 }),
                  can_hold := false }

end BattleGame

/-! ### Single-player enhanced game (game.py) -/

/-- `GameState` from constants.py. -/
inductive GameState where
  | menu
  | playing
  | paused
  | game_over
  | game_over_input
  | submitting_score
  | leaderboard
  | mode_unlocked
  deriving Repr, DecidableEq

/-- The three single-player modes carrying a score multiplier. -/
inductive GameMode where
  | casual
  | classic
  | crazy
  deriving Repr, DecidableEq

/-- `SCORE_MULTIPLIERS` from constants.py (0.8 / 1.0 / 2.0). -/
def score_multiplier : GameMode → Rat
  | .casual => 4 / 5
  | .classic => 1
  | .crazy => 2

/-- The slice of `GameEnhanced` state the verified operations touch. -/
structure GameEnhanced where
  board : Board
  state : GameState
  score : Int
  level : Nat
  lines_cleared : Nat
  current_block : Option Block
  next_block : Option Block
  held_block : Option Block
  can_hold : Bool
  is_powerup_block : Bool
  fall_speed : Rat
  lock_timer : Rat
  is_on_ground : Bool
  deriving Repr, DecidableEq

namespace GameEnhanced

/-- `GameEnhanced.spawn_new_block`: promote the next block (or use the
generator's output `gen` when there is none, leaving `next_block` alone),
roll `is_powerup_block`, place the current block at
`x = width // 2 - 2, y = 0` (the rotation index is not touched), flag game
over when the spawn position collides (non-ghost path), and reset hold,
ground flag and lock timer. -/
def spawn_new_block (g : GameEnhanced) (gen : Block) (puRoll ghost : Bool) : GameEnhanced :=
  let pair := match g.next_block with
    | some nb => (nb, some gen)
    | none => (gen, g.next_block)
  let cur := { pair.1 with x := ((g.board.width / 2 : Nat) : Int) - 2, y := 0 }
  let st := if ¬ghost ∧ ¬(g.board.is_valid_position cur) then GameState.game_over else g.state
  { g with current_block := some cur, next_block := pair.2, is_powerup_block := puRoll,
           state := st, can_hold := true, is_on_ground := false, lock_timer := 0 }

/-- `GameEnhanced.move_block`, non-ghost path, at block level: translate
and keep the move iff the new position is valid (the ground re-check side
effects are `check_ground_after_move` below). -/
def move_block (bd : Board) (blk : Block) (dx dy : Int) : Block × Bool :=
  let moved := { blk with x := blk.x + dx, y := blk.y + dy }
  if bd.is_valid_position moved then (moved, true) else (blk, false)

/-- `GameEnhanced._check_ground_after_move`, non-ghost path: when the
current block rests on ground but can now fall one row, clear the ground
flag and zero the lock timer. -/
def check_ground_after_move (bd : Board) (cur : Option Block)
    (is_on_ground : Bool) (lock_timer : Rat) : Bool × Rat :=
  match cur with
  | none => (is_on_ground, lock_timer)
  | some blk =>
    if ¬ is_on_ground then (is_on_ground, lock_timer)
    else if bd.is_valid_position { blk with y := blk.y + 1 } then (false, 0)
    else (is_on_ground, lock_timer)

/-- The game.py wall-kick list, in source order (tried after the plain
rotated position). -/
def WALL_KICKS : List (Int × Int) := [(1, 0), (-1, 0), (2, 0), (-2, 0), (0, -1)]

/-- `GameEnhanced.rotate_block`, non-ghost path, at block level: rotate,
accept the plain position or the first valid wall kick (each failed kick
is reverted by the source before trying the next), and restore the
original rotation on total failure. -/
def rotate_block (bd : Board) (blk : Block) (clockwise : Bool) : Block × Bool :=
  let rotated := if clockwise then blk.rotate_cw else blk.rotate_ccw
  if bd.is_valid_position rotated then (rotated, true)
  else
    match WALL_KICKS.find? (fun k => bd.is_valid_position (BattleGame.applyKick rotated k)) with
    | some k => (BattleGame.applyKick rotated k, true)
    | none => ({ rotated with rotation := blk.rotation }, false)

/-- The `while self.move_block(0, 1)` loop of `GameEnhanced.hard_drop`. -/
def hardDropAux (bd : Board) : Nat → Block → Nat → Block × Nat
  | 0, blk, rows => (blk, rows)
  | fuel + 1, blk, rows =>
    let q := move_block bd blk 0 1
    if q.2 then hardDropAux bd fuel q.1 (rows + 1) else (blk, rows)

/-- `GameEnhanced.hard_drop` at block level: drop until a downward move
fails, returning the rest position and `rows_dropped` (the caller credits
`rows * SCORE_HARD_DROP`). -/
def hard_drop (bd : Board) (blk : Block) (fuel : Nat) : Block × Nat :=
  hardDropAux bd fuel blk 0

/-- The `[0, SINGLE, DOUBLE, TRIPLE, QUAD][min(lines, 4)]` lookup of
`GameEnhanced.lock_block`. -/
def line_score (lines : Nat) : Nat :=
  [0, SCORE_SINGLE_LINE, SCORE_DOUBLE_LINE, SCORE_TRIPLE_LINE, SCORE_QUAD_LINE].getD
    (min lines 4) 0

/-- The scoring step of `GameEnhanced.lock_block`:
`score += int(line_score * level * multiplier)` when lines were cleared
(`int()` truncates; all factors are non-negative, so it is the floor). -/
def apply_line_score (score : Int) (level : Nat) (mult : Rat) (lines : Nat) : Int :=
  if 0 < lines then score + Int.floor ((line_score lines : Rat) * (level : Rat) * mult)
  else score

end GameEnhanced

/-! ### Concrete pieces and states used by witnesses and counterexamples -/

/-- `SHAPE_O` from tetromino.py. -/
def SHAPE_O : List (List (List Nat)) := [[[1, 1], [1, 1]]]

/-- `SHAPE_I` from tetromino.py. -/
def SHAPE_I : List (List (List Nat)) :=
  [[[0, 0, 0, 0], [1, 1, 1, 1], [0, 0, 0, 0], [0, 0, 0, 0]],
   [[0, 0, 1, 0], [0, 0, 1, 0], [0, 0, 1, 0], [0, 0, 1, 0]],
   [[0, 0, 0, 0], [0, 0, 0, 0], [1, 1, 1, 1], [0, 0, 0, 0]],
   [[0, 1, 0, 0], [0, 1, 0, 0], [0, 1, 0, 0], [0, 1, 0, 0]]]

/-- An O piece at the origin. -/
def oPiece : Block :=
  { shape := SHAPE_O, color := (255, 245, 157), x := 0, y := 0, rotation := 0 }

/-- An I piece in its vertical rotation state. -/
def iPieceVert : Block :=
  { shape := SHAPE_I, color := (130, 238, 253), x := -2, y := 0, rotation := 1 }

/-- A battle player with default fields on a given board. -/
def basePlayer (bd : Board) : BattlePlayer :=
  { board := bd, score := 0, lines := 0, level := 1, current_block := none,
    next_block := none, hold_block := none, can_hold := true, fall_timer := 0,
    lock_timer := 0, is_on_ground := false, powerups := [], active_debuffs := [],
    pending_garbage := 0, is_dead := false }

/-- A minimal `GameEnhanced` state on a given board. -/
def baseGame (bd : Board) : GameEnhanced :=
  { board := bd, state := GameState.playing, score := 0, level := 1, lines_cleared := 0,
    current_block := none, next_block := none, held_block := none, can_hold := true,
    is_powerup_block := false, fall_speed := 1, lock_timer := 0, is_on_ground := false }

/-- Witness board for C1: width 2, height 4, full rows at indices 0 and 2. -/
def wBoardC1 : Board :=
  { width := 2, height := 4,
    grid := [[some (9, 9, 9), some (9, 9, 9)],
             [some (9, 9, 9), none],
             [some (9, 9, 9), some (9, 9, 9)],
             [none, some (9, 9, 9)]] }

/-- C3/C5 player: empty 2×3 board, O piece one row above the floor,
two pending garbage lines. -/
def pC3 : BattlePlayer :=
  { basePlayer (Board.create 2 3) with
      current_block := some { oPiece with y := 1 }, pending_garbage := 2 }

/-- C3 opponent: a default player on an empty 2×3 board. -/
def oppC3 : BattlePlayer := basePlayer (Board.create 2 3)

/-- C6 player: a vertical I piece squeezed into a 1-wide board, so that
every rotation kick fails. -/
def pC6 : BattlePlayer :=
  { basePlayer (Board.create 1 4) with
      current_block := some iPieceVert, lock_timer := 1 }

/-- C7 player: an O piece resting on the floor of an empty 3×2 board with
a partially elapsed lock timer. -/
def pC7 : BattlePlayer :=
  { basePlayer (Board.create 3 2) with
      current_block := some oPiece, is_on_ground := true, lock_timer := 3 }

/-- C8 battle player: empty 10×20 board with an O piece queued as next. -/
def pC8 : BattlePlayer :=
  { basePlayer (Board.create 10 20) with next_block := some oPiece }

/-- C8 game state: empty 10×20 board with an O piece queued as next. -/
def gC8 : GameEnhanced :=
  { baseGame (Board.create 10 20) with next_block := some oPiece }

/-! ### Helper lemmas -/

lemma rowFull_emptyRow (w : Nat) (hw : 0 < w) : rowFull (emptyRow w) = false := by
  cases w with
  | zero => omega
  | succ n => simp [rowFull, emptyRow, List.replicate_succ]

lemma length_emptyRow (w : Nat) : (emptyRow w).length = w := by
  simp [emptyRow]

lemma getElem_append_middle {α : Type} (f : List α) (r : α) (back : List α) :
    (f ++ r :: back)[f.length]? = some r := by
  induction f with
  | nil => simp
  | cons a l ih => simpa using ih

lemma eraseIdx_append_middle {α : Type} (f : List α) (r : α) (back : List α) :
    (f ++ r :: back).eraseIdx f.length = f ++ back := by
  induction f with
  | nil => rfl
  | cons a l ih => simpa using ih

/-- Loop invariant of `clear_lines`: if the rows below the scan index are
all non-full, the loop replaces the grid by `k` fresh empty rows on top of
the non-full rows (in order), adding `k` to the counter, where `k` is the
number of full rows in the unscanned prefix. -/
lemma clearLinesAux_spec (w : Nat) (hw : 0 < w) :
    ∀ fuel front back c, (∀ r ∈ front, r.length = w) →
      (∀ r ∈ back, rowFull r = false) →
      front.length + countFull front ≤ fuel →
      clearLinesAux w fuel (front ++ back) front.length c =
        (List.replicate (countFull front) (emptyRow w) ++
           front.filter (fun r => !rowFull r) ++ back,
         c + countFull front) := by
  intro fuel
  induction fuel with
  | zero =>
    intro front back c hlen hback hfuel
    have hf : front = [] := by
      cases front with
      | nil => rfl
      | cons a l => simp at hfuel
    subst hf
    simp [clearLinesAux, countFull]
  | succ fu ih =>
    intro front back c hlen hback hfuel
    rcases List.eq_nil_or_concat front with hf | ⟨f, r, hf⟩
    · subst hf
      simp [clearLinesAux, countFull]
    · rw [List.concat_eq_append] at hf
      subst hf
      have hflen : (f ++ [r]).length = f.length + 1 := by simp
      have hgrid : (f ++ [r]) ++ back = f ++ r :: back := by simp
      rw [hflen, hgrid]
      have hget : (f ++ r :: back)[f.length]? = some r := getElem_append_middle f r back
      by_cases hfull : rowFull r = true
      · have hcf : countFull (f ++ [r]) = countFull f + 1 := by
          simp [countFull, List.countP_append, hfull]
        have hstep : clearLinesAux w (fu + 1) (f ++ r :: back) (f.length + 1) c =
            clearLinesAux w fu (emptyRow w :: (f ++ r :: back).eraseIdx f.length)
              (f.length + 1) (c + 1) := by
          rw [clearLinesAux, hget]
          simp [hfull]
        rw [hstep, eraseIdx_append_middle]
        have hcons : emptyRow w :: (f ++ back) = (emptyRow w :: f) ++ back := rfl
        rw [hcons]
        have hlen' : (emptyRow w :: f).length = f.length + 1 := by simp
        rw [← hlen']
        have hcf' : countFull (emptyRow w :: f) = countFull f := by
          simp [countFull, List.countP_cons, rowFull_emptyRow w hw]
        rw [ih (emptyRow w :: f) back (c + 1)
          (by intro rr hrr
              rcases List.mem_cons.mp hrr with h | h
              · rw [h]; exact length_emptyRow w
              · exact hlen rr (by simp [h]))
          hback
          (by rw [hlen', hcf']; omega)]
        rw [hcf', hcf]
        have hfilter : (emptyRow w :: f).filter (fun r => !rowFull r) =
            emptyRow w :: f.filter (fun r => !rowFull r) := by
          simp [List.filter_cons, rowFull_emptyRow w hw]
        have hfilter' : (f ++ [r]).filter (fun r => !rowFull r) =
            f.filter (fun r => !rowFull r) := by
          simp [List.filter_append, hfull]
        rw [hfilter, hfilter']
        simp only [Prod.mk.injEq]
        refine ⟨by simp [List.replicate_succ'], by omega⟩
      · have hfull' : rowFull r = false := by
          cases h : rowFull r
          · rfl
          · exact absurd h hfull
        have hcf : countFull (f ++ [r]) = countFull f := by
          simp [countFull, List.countP_append, hfull']
        have hstep : clearLinesAux w (fu + 1) (f ++ r :: back) (f.length + 1) c =
            clearLinesAux w fu (f ++ r :: back) f.length c := by
          rw [clearLinesAux, hget]
          simp [hfull']
        rw [hstep]
        have hsplit : f ++ r :: back = f ++ (r :: back) := rfl
        rw [hsplit, ih f (r :: back) c
          (fun rr hrr => hlen rr (by simp [hrr]))
          (by intro rr hrr
              rcases List.mem_cons.mp hrr with h | h
              · rw [h]; exact hfull'
              · exact hback rr h)
          (by rw [hcf] at hfuel; omega)]
        rw [hcf]
        have hfilter : (f ++ [r]).filter (fun r => !rowFull r) =
            f.filter (fun r => !rowFull r) ++ [r] := by
          simp [List.filter_append, hfull']
        rw [hfilter]
        simp only [Prod.mk.injEq]
        refine ⟨by simp, ?_⟩
        trivial

/-- `clear_lines` on a well-formed board with positive width replaces the
grid by `k` empty rows on top of the non-full rows, and returns `k`, the
number of full rows. -/
lemma clear_lines_spec (bd : Board) (hw : 0 < bd.width) (hWF : bd.WF) :
    bd.clear_lines =
      ({ bd with grid := List.replicate (countFull bd.grid) (emptyRow bd.width) ++
          bd.grid.filter (fun r => !rowFull r) }, countFull bd.grid) := by
  obtain ⟨hlen, hrows⟩ := hWF
  have hcnt : countFull bd.grid ≤ bd.grid.length := List.countP_le_length _
  have h := clearLinesAux_spec bd.width hw (2 * bd.height + 1) bd.grid [] 0 hrows
    (by intro r hr; simp at hr)
    (by omega)
  rw [List.append_nil] at h
  rw [Board.clear_lines, hlen] at *
  rw [h]
  simp

/-! ### Claim theorems -/

/-- Claim C2: `is_valid_position(block)` returns false iff some occupied
cell of the block has `x < 0`, `x ≥ width` or `y ≥ height`, or has
`0 ≤ y < height` with the corresponding grid cell already occupied; cells
with `y < 0` are skipped for the occupancy check. -/
theorem C2_is_valid_position (bd : Board) (blk : Block) :
    bd.is_valid_position blk = false ↔
      ∃ c ∈ blk.get_cells,
        c.1 < 0 ∨ (bd.width : Int) ≤ c.1 ∨ (bd.height : Int) ≤ c.2 ∨
          (0 ≤ c.2 ∧ c.2 < (bd.height : Int) ∧ (bd.cellAt c.1 c.2).isSome) := by
  rw [Board.is_valid_position]
  rw [← Bool.not_eq_true, List.all_eq_true]
  simp only [not_forall]
  constructor
  · rintro ⟨c, hc, hbad⟩
    refine ⟨c, hc, ?_⟩
    rw [Board.cellOK] at hbad
    by_cases hb : c.1 < 0 ∨ (bd.width : Int) ≤ c.1 ∨ (bd.height : Int) ≤ c.2
    · rcases hb with h | h | h
      · exact Or.inl h
      · exact Or.inr (Or.inl h)
      · exact Or.inr (Or.inr (Or.inl h))
    · rw [if_neg hb] at hbad
      push_neg at hb
      by_cases hy : (0 : Int) ≤ c.2
      · rw [if_pos hy] at hbad
        refine Or.inr (Or.inr (Or.inr ⟨hy, hb.2.2, ?_⟩))
        cases hcell : (bd.cellAt c.1 c.2) with
        | none => rw [hcell] at hbad; simp at hbad
        | some v => simp [hcell]
      · rw [if_neg hy] at hbad
        simp at hbad
  · rintro ⟨c, hc, hbad⟩
    refine ⟨c, hc, ?_⟩
    rw [Board.cellOK]
    rcases hbad with h | h | h | ⟨hy, hlt, hocc⟩
    · rw [if_pos (Or.inl h)]; simp
    · rw [if_pos (Or.inr (Or.inl h))]; simp
    · rw [if_pos (Or.inr (Or.inr h))]; simp
    · by_cases hb : c.1 < 0 ∨ (bd.width : Int) ≤ c.1 ∨ (bd.height : Int) ≤ c.2
      · rw [if_pos hb]; simp
      · rw [if_neg hb, if_pos hy]
        simp [Option.isNone_iff_eq_none]
        intro hnone
        rw [hnone] at hocc
        simp at hocc

/-- Claim C1: `clear_lines` removes exactly the rows that are full at call
time, keeps the remaining rows in relative order shifted down by the
number removed, inserts that many empty rows at the top, and returns the
number of rows removed; a board with zero full rows is left unchanged and
0 is returned. Any number of simultaneous (also non-adjacent) full rows is
covered because `countFull` ranges over all of `0..height`. -/
theorem C1_clear_lines (bd : Board) (hw : 0 < bd.width) (hWF : bd.WF) :
    bd.clear_lines.2 = countFull bd.grid ∧
    bd.clear_lines.1.grid =
      List.replicate (countFull bd.grid) (emptyRow bd.width) ++
        bd.grid.filter (fun r => !rowFull r) ∧
    (countFull bd.grid = 0 → bd.clear_lines.1 = bd ∧ bd.clear_lines.2 = 0) := by
  have h := clear_lines_spec bd hw hWF
  refine ⟨by rw [h], by rw [h], ?_⟩
  intro h0
  have hfilter : bd.grid.filter (fun r => !rowFull r) = bd.grid :=
    List.filter_eq_self.mpr (by
      intro r hr
      have hz := List.countP_eq_zero.mp h0 r hr
      simp only [Bool.not_eq_true] at hz
      simp [hz])
  constructor
  · rw [h]
    simp [h0, hfilter]
  · rw [h, h0]

/-- Witness for C1 at a concrete 2×4 board whose full rows sit at the
non-adjacent indices 0 and 2. -/
theorem C1_clear_lines_witness :
    wBoardC1.clear_lines.2 = countFull wBoardC1.grid ∧
    wBoardC1.clear_lines.1.grid =
      List.replicate (countFull wBoardC1.grid) (emptyRow wBoardC1.width) ++
        wBoardC1.grid.filter (fun r => !rowFull r) ∧
    (countFull wBoardC1.grid = 0 →
      wBoardC1.clear_lines.1 = wBoardC1 ∧ wBoardC1.clear_lines.2 = 0) :=
  C1_clear_lines wBoardC1 (by decide) (by decide)

lemma garbageRow_length (w gap : Nat) : (BattleGame.garbageRow w gap).length = w := by
  simp [BattleGame.garbageRow]

lemma garbageRow_succ (n gap : Nat) :
    BattleGame.garbageRow (n + 1) gap =
      BattleGame.garbageRow n gap ++ [if n = gap then none else some COLOR_GRAY] := by
  simp [BattleGame.garbageRow, List.range_succ]

/-- Occupancy counts of a garbage row: with an in-range gap, exactly
`w - 1` occupied cells and one empty cell. -/
lemma garbageRow_counts (w : Nat) : ∀ gap : Nat,
    ((BattleGame.garbageRow w gap).countP (fun c => c.isSome) =
       if gap < w then w - 1 else w) ∧
    ((BattleGame.garbageRow w gap).countP (fun c => c.isNone) =
       if gap < w then 1 else 0) := by
  induction w with
  | zero =>
    intro gap
    simp [BattleGame.garbageRow]
  | succ n ih =>
    intro gap
    obtain ⟨ih1, ih2⟩ := ih gap
    rw [garbageRow_succ, List.countP_append, List.countP_append, ih1, ih2]
    by_cases h2 : n = gap
    · subst h2
      have h1 : ¬ (n < n) := by omega
      have hlt : n < n + 1 := by omega
      rw [if_neg h1, if_neg h1, if_pos hlt, if_pos hlt]
      constructor
      · simp [List.countP_cons]
      · simp [List.countP_cons]
    · by_cases h1 : gap < n
      · have hlt : gap < n + 1 := by omega
        rw [if_pos h1, if_pos h1, if_pos hlt, if_pos hlt]
        constructor
        · simp only [List.countP_cons, List.countP_nil, h2, if_neg h2]
          simp
          omega
        · simp [List.countP_cons, h2]
      · have hge : ¬ (gap < n + 1) := by omega
        rw [if_neg h1, if_neg h1, if_neg hge, if_neg hge]
        constructor
        · simp [List.countP_cons, h2]
        · simp [List.countP_cons, h2]

lemma getD_range_map {β : Type} (f : Nat → β) (d : β) (h i : Nat) (hi : i < h) :
    ((List.range h).map f).getD i d = f i := by
  have hlen : ((List.range h).map f).length = h := by simp
  rw [List.getD_eq_getElem _ _ (by rw [hlen]; exact hi)]
  rw [List.getElem_map, List.getElem_range]

/-- The board produced by `add_garbage_lines` (positive count), row by
row: the top `height - count` rows are the old rows shifted up by `count`
and the bottom `count` rows are garbage rows. -/
lemma add_garbage_board (p : BattlePlayer) (count : Nat) (gaps : Nat → Nat)
    (hc : count ≠ 0) :
    (BattleGame.add_garbage_lines p count gaps).board =
      { p.board with grid := (List.range p.board.height).map (fun y =>
          if p.board.height - count ≤ y then BattleGame.garbageRow p.board.width (gaps y)
          else if y + count < p.board.height then p.board.grid.getD (y + count) []
          else p.board.grid.getD y []) } := by
  unfold BattleGame.add_garbage_lines
  rw [if_neg hc]
  simp only
  congr 1
  apply List.map_congr_left
  intro y hy
  have hy' : y < p.board.height := List.mem_range.mp hy
  by_cases hg : p.board.height - count ≤ y
  · rw [if_pos hg, if_pos hg]
  · rw [if_neg hg, if_neg hg, getD_range_map _ _ _ _ hy']

/-- `add_garbage_lines` preserves board well-formedness and dimensions. -/
lemma add_garbage_WF (p : BattlePlayer) (count : Nat) (gaps : Nat → Nat)
    (hWF : p.board.WF) :
    (BattleGame.add_garbage_lines p count gaps).board.WF ∧
    (BattleGame.add_garbage_lines p count gaps).board.width = p.board.width ∧
    (BattleGame.add_garbage_lines p count gaps).board.height = p.board.height := by
  by_cases hc : count = 0
  · unfold BattleGame.add_garbage_lines
    rw [if_pos hc]
    exact ⟨hWF, rfl, rfl⟩
  · rw [add_garbage_board p count gaps hc]
    obtain ⟨hlen, hrows⟩ := hWF
    refine ⟨⟨by simp, ?_⟩, rfl, rfl⟩
    intro r hr
    simp only [List.mem_map, List.mem_range] at hr
    obtain ⟨y, hy, hfy⟩ := hr
    by_cases hg : p.board.height - count ≤ y
    · rw [if_pos hg] at hfy
      rw [← hfy]
      exact garbageRow_length _ _
    · rw [if_neg hg] at hfy
      by_cases hs : y + count < p.board.height
      · rw [if_pos hs] at hfy
        rw [← hfy, List.getD_eq_getElem _ _ (by omega)]
        exact hrows _ (List.getElem_mem _)
      · rw [if_neg hs] at hfy
        rw [← hfy, List.getD_eq_getElem _ _ (by omega)]
        exact hrows _ (List.getElem_mem _)

/-- Claim C4: injecting `count > 0` garbage lines (with `count ≤ height`)
shifts the existing content up by `count` rows, discards the original top
`count` rows, keeps the grid dimensions, and fills the bottom `count` rows
with rows having exactly `width - 1` occupied cells and exactly one empty
gap cell — for every choice of per-row gap column. -/
theorem C4_add_garbage (p : BattlePlayer) (count : Nat) (gaps : Nat → Nat)
    (hWF : p.board.WF) (hc : 0 < count) (hch : count ≤ p.board.height)
    (hgaps : ∀ y < p.board.height, gaps y < p.board.width) :
    (BattleGame.add_garbage_lines p count gaps).board.width = p.board.width ∧
    (BattleGame.add_garbage_lines p count gaps).board.height = p.board.height ∧
    (BattleGame.add_garbage_lines p count gaps).board.WF ∧
    (∀ i, i < p.board.height - count →
      (BattleGame.add_garbage_lines p count gaps).board.grid.getD i [] =
        p.board.grid.getD (i + count) []) ∧
    (∀ i, p.board.height - count ≤ i → i < p.board.height →
      (BattleGame.add_garbage_lines p count gaps).board.grid.getD i [] =
        BattleGame.garbageRow p.board.width (gaps i) ∧
      ((BattleGame.add_garbage_lines p count gaps).board.grid.getD i []).countP
        (fun c => c.isSome) = p.board.width - 1 ∧
      ((BattleGame.add_garbage_lines p count gaps).board.grid.getD i []).countP
        (fun c => c.isNone) = 1) := by
  obtain ⟨hwf', hw', hh'⟩ := add_garbage_WF p count gaps hWF
  have hg := add_garbage_board p count gaps (by omega)
  refine ⟨hw', hh', hwf', ?_, ?_⟩
  · intro i hi
    rw [hg]
    simp only
    rw [getD_range_map _ _ _ _ (by omega), if_neg (by omega), if_pos (by omega)]
  · intro i h1 h2
    have hrow : (BattleGame.add_garbage_lines p count gaps).board.grid.getD i [] =
        BattleGame.garbageRow p.board.width (gaps i) := by
      rw [hg]
      simp only
      rw [getD_range_map _ _ _ _ h2, if_pos h1]
    obtain ⟨hcs, hcn⟩ := garbageRow_counts p.board.width (gaps i)
    have hglt : gaps i < p.board.width := hgaps i h2
    refine ⟨hrow, ?_, ?_⟩
    · rw [hrow, hcs, if_pos hglt]
    · rw [hrow, hcn, if_pos hglt]

/-- Witness for C4: two garbage lines with alternating gap columns on the
concrete 2×4 board. -/
theorem C4_add_garbage_witness :
    (BattleGame.add_garbage_lines (basePlayer wBoardC1) 2 (fun y => y % 2)).board.width =
      (basePlayer wBoardC1).board.width ∧
    (BattleGame.add_garbage_lines (basePlayer wBoardC1) 2 (fun y => y % 2)).board.height =
      (basePlayer wBoardC1).board.height ∧
    (BattleGame.add_garbage_lines (basePlayer wBoardC1) 2 (fun y => y % 2)).board.WF ∧
    (∀ i, i < (basePlayer wBoardC1).board.height - 2 →
      (BattleGame.add_garbage_lines (basePlayer wBoardC1) 2
          (fun y => y % 2)).board.grid.getD i [] =
        (basePlayer wBoardC1).board.grid.getD (i + 2) []) ∧
    (∀ i, (basePlayer wBoardC1).board.height - 2 ≤ i →
        i < (basePlayer wBoardC1).board.height →
      (BattleGame.add_garbage_lines (basePlayer wBoardC1) 2
          (fun y => y % 2)).board.grid.getD i [] =
        BattleGame.garbageRow (basePlayer wBoardC1).board.width (i % 2) ∧
      ((BattleGame.add_garbage_lines (basePlayer wBoardC1) 2
          (fun y => y % 2)).board.grid.getD i []).countP
        (fun c => c.isSome) = (basePlayer wBoardC1).board.width - 1 ∧
      ((BattleGame.add_garbage_lines (basePlayer wBoardC1) 2
          (fun y => y % 2)).board.grid.getD i []).countP
        (fun c => c.isNone) = 1) :=
  C4_add_garbage (basePlayer wBoardC1) 2 (fun y => y % 2)
    (by decide) (by decide) (by decide) (by decide)

/-- The board produced by `add_garbage_lines` depends only on the input
player's board. -/
lemma add_garbage_board_only (p q : BattlePlayer) (count : Nat) (gaps : Nat → Nat)
    (h : p.board = q.board) :
    (BattleGame.add_garbage_lines p count gaps).board =
      (BattleGame.add_garbage_lines q count gaps).board := by
  unfold BattleGame.add_garbage_lines
  by_cases hc : count = 0
  · rw [if_pos hc, if_pos hc]; exact h
  · rw [if_neg hc, if_neg hc]
    simp only [h]

/-- `spawn_block` never touches the player's board. -/
lemma spawn_block_board (p : BattlePlayer) (puRoll : Option BattlePowerUpType)
    (fresh nn : Block) :
    (BattleGame.spawn_block p puRoll fresh nn).1.board = p.board := by
  unfold BattleGame.spawn_block
  dsimp only
  repeat' split
  all_goals rfl

/-- `spawn_block` never touches the pending-garbage counter. -/
lemma spawn_block_pending (p : BattlePlayer) (puRoll : Option BattlePowerUpType)
    (fresh nn : Block) :
    (BattleGame.spawn_block p puRoll fresh nn).1.pending_garbage = p.pending_garbage := by
  unfold BattleGame.spawn_block
  dsimp only
  repeat' split
  all_goals rfl

/-- `move_block` never touches any board: a piece in flight cannot change
the grid. -/
lemma move_block_board (p : BattlePlayer) (dx dy : Int) :
    (BattleGame.move_block p dx dy).1.board = p.board := by
  unfold BattleGame.move_block
  cases p.current_block with
  | none => rfl
  | some blk =>
    dsimp only
    repeat' split
    all_goals rfl

/-- `rotate_block` never touches any board. -/
lemma rotate_block_board (p : BattlePlayer) (cw : Bool) :
    (BattleGame.rotate_block p cw).1.board = p.board := by
  unfold BattleGame.rotate_block
  cases p.current_block with
  | none => rfl
  | some blk =>
    dsimp only
    repeat' split
    all_goals rfl

/-- `hold_block` never touches the player's board. -/
lemma hold_block_board (p : BattlePlayer) (puRoll : Option BattlePowerUpType)
    (fresh nn : Block) :
    (BattleGame.hold_block p puRoll fresh nn).board = p.board := by
  unfold BattleGame.hold_block
  split
  · rfl
  · cases p.current_block with
    | none => rfl
    | some cur =>
      cases p.hold_block with
      | some hb => rfl
      | none =>
        simp only
        exact spawn_block_board { p with hold_block := some cur } puRoll fresh nn

/-- Claim C3: when a player locks and clears `k` lines, the opponent's
pending-garbage counter grows by `GARBAGE_LINES k` (0 for a single, 1 for
a double, 2 for a triple, 4 for a quad) while the opponent's board stays
untouched; the player's own pending garbage is injected into their board
inside the lock step — after placement and line clearing, before the next
spawn — with the pending counter reset to 0; and a piece in flight (moves,
rotations, holds) never changes any board. -/
theorem C3_garbage_timing (p opp : BattlePlayer) (gaps : Nat → Nat)
    (puRoll : Option BattlePowerUpType) (fresh nn : Block) (blk : Block)
    (hcur : p.current_block = some blk) :
    (BattleGame.lock_block p opp gaps puRoll fresh nn).2.board = opp.board ∧
    (BattleGame.lock_block p opp gaps puRoll fresh nn).2.pending_garbage =
      opp.pending_garbage + GARBAGE_LINES ((p.board.place_block blk).clear_lines).2 ∧
    (GARBAGE_LINES 1 = 0 ∧ GARBAGE_LINES 2 = 1 ∧ GARBAGE_LINES 3 = 2 ∧
      GARBAGE_LINES 4 = 4) ∧
    (BattleGame.lock_block p opp gaps puRoll fresh nn).1.board =
      (if 0 < p.pending_garbage then
        (BattleGame.add_garbage_lines
          { p with board := ((p.board.place_block blk).clear_lines).1 }
          p.pending_garbage gaps).board
       else ((p.board.place_block blk).clear_lines).1) ∧
    (BattleGame.lock_block p opp gaps puRoll fresh nn).1.pending_garbage = 0 ∧
    (∀ dx dy, (BattleGame.move_block p dx dy).1.board = p.board) ∧
    (∀ cw, (BattleGame.rotate_block p cw).1.board = p.board) ∧
    (BattleGame.hold_block p puRoll fresh nn).board = p.board := by
  refine ⟨?_, ?_, ⟨rfl, rfl, rfl, rfl⟩, ?_, ?_,
    (fun dx dy => move_block_board p dx dy), (fun cw => rotate_block_board p cw),
    hold_block_board p puRoll fresh nn⟩
  · simp only [BattleGame.lock_block, hcur]
  · simp only [BattleGame.lock_block, hcur]
    by_cases h : 0 < ((p.board.place_block blk).clear_lines).2 ∧
        0 < GARBAGE_LINES ((p.board.place_block blk).clear_lines).2
    · rw [if_pos h]
    · rw [if_neg h]
      have hz : GARBAGE_LINES ((p.board.place_block blk).clear_lines).2 = 0 := by
        rcases Nat.eq_zero_or_pos ((p.board.place_block blk).clear_lines).2 with h0 | h0
        · rw [h0]
          rfl
        · omega
      omega
  · simp only [BattleGame.lock_block, hcur]
    rw [spawn_block_board]
    split
    · exact add_garbage_board_only _ _ _ _ rfl
    · rfl
  · simp only [BattleGame.lock_block, hcur]
    rw [spawn_block_pending]
    split
    · rfl
    · rename_i h
      dsimp only at h ⊢
      omega

/-- Witness for C3: a player with two pending garbage lines locks an O
piece that clears two rows on a 2×3 board. -/
theorem C3_garbage_timing_witness :
    (BattleGame.lock_block pC3 oppC3 (fun _ => 0) none oPiece oPiece).2.board =
      oppC3.board ∧
    (BattleGame.lock_block pC3 oppC3 (fun _ => 0) none oPiece oPiece).2.pending_garbage =
      oppC3.pending_garbage +
        GARBAGE_LINES ((pC3.board.place_block { oPiece with y := 1 }).clear_lines).2 ∧
    (GARBAGE_LINES 1 = 0 ∧ GARBAGE_LINES 2 = 1 ∧ GARBAGE_LINES 3 = 2 ∧
      GARBAGE_LINES 4 = 4) ∧
    (BattleGame.lock_block pC3 oppC3 (fun _ => 0) none oPiece oPiece).1.board =
      (if 0 < pC3.pending_garbage then
        (BattleGame.add_garbage_lines
          { pC3 with board := ((pC3.board.place_block { oPiece with y := 1 }).clear_lines).1 }
          pC3.pending_garbage (fun _ => 0)).board
       else ((pC3.board.place_block { oPiece with y := 1 }).clear_lines).1) ∧
    (BattleGame.lock_block pC3 oppC3 (fun _ => 0) none oPiece oPiece).1.pending_garbage = 0 ∧
    (∀ dx dy, (BattleGame.move_block pC3 dx dy).1.board = pC3.board) ∧
    (∀ cw, (BattleGame.rotate_block pC3 cw).1.board = pC3.board) ∧
    (BattleGame.hold_block pC3 none oPiece oPiece).board = pC3.board :=
  C3_garbage_timing pC3 oppC3 (fun _ => 0) none oPiece oPiece
    { oPiece with y := 1 } (by decide)

lemma dropBy_zero (b : Block) : dropBy b 0 = b := by
  simp [dropBy]

lemma dropBy_dropBy (b : Block) (m n : Nat) : dropBy (dropBy b m) n = dropBy b (m + n) := by
  simp only [dropBy, Block.mk.injEq, true_and, and_true]
  push_cast
  ring

lemma hardDropAux_invalid (bd : Board) (blk : Block) (d fuel : Nat)
    (h : bd.is_valid_position blk = false) :
    BattleGame.hardDropAux bd fuel blk d = (blk, d) := by
  cases fuel with
  | zero => rfl
  | succ fu => simp [BattleGame.hardDropAux, h]

/-- The battle hard-drop loop moves the block down to the first invalid
offset `n`, counting `n` iterations; all smaller offsets are valid. -/
lemma hardDropAux_spec (bd : Board) :
    ∀ fuel blk d, bd.is_valid_position blk = true →
      (∃ m, m ≤ fuel ∧ bd.is_valid_position (dropBy blk m) = false) →
      ∃ n, 1 ≤ n ∧
        BattleGame.hardDropAux bd fuel blk d = (dropBy blk n, d + n) ∧
        bd.is_valid_position (dropBy blk n) = false ∧
        ∀ j, j < n → bd.is_valid_position (dropBy blk j) = true := by
  intro fuel
  induction fuel with
  | zero =>
    intro blk d h0 hex
    obtain ⟨m, hm, hinv⟩ := hex
    exfalso
    have hm0 : m = 0 := by omega
    rw [hm0, dropBy_zero, h0] at hinv
    simp at hinv
  | succ fu ih =>
    intro blk d h0 hex
    obtain ⟨m, hm, hinv⟩ := hex
    have hstep : BattleGame.hardDropAux bd (fu + 1) blk d =
        BattleGame.hardDropAux bd fu (dropBy blk 1) (d + 1) := by
      simp [BattleGame.hardDropAux, h0]
    by_cases hval : bd.is_valid_position (dropBy blk 1) = true
    · have hm0 : m ≠ 0 := by
        intro h
        rw [h, dropBy_zero, h0] at hinv
        simp at hinv
      have hm1 : m ≠ 1 := by
        intro h
        rw [h, hval] at hinv
        simp at hinv
      have hrec := ih (dropBy blk 1) (d + 1) hval
        ⟨m - 1, by omega, by
          rw [dropBy_dropBy, show 1 + (m - 1) = m by omega]
          exact hinv⟩
      obtain ⟨n', h1', heq', hinv', hall'⟩ := hrec
      refine ⟨n' + 1, by omega, ?_, ?_, ?_⟩
      · rw [hstep, heq', dropBy_dropBy]
        congr 1
        · congr 1
          omega
        · omega
      · rw [show n' + 1 = 1 + n' by omega, ← dropBy_dropBy]
        exact hinv'
      · intro j hj
        cases j with
        | zero => rw [dropBy_zero]; exact h0
        | succ j' =>
          rw [show j' + 1 = 1 + j' by omega, ← dropBy_dropBy]
          exact hall' j' (by omega)
    · have hval' : bd.is_valid_position (dropBy blk 1) = false := by
        cases h : bd.is_valid_position (dropBy blk 1)
        · rfl
        · exact absurd h hval
      refine ⟨1, le_refl 1, ?_, hval', ?_⟩
      · rw [hstep, hardDropAux_invalid bd (dropBy blk 1) (d + 1) fu hval']
      · intro j hj
        have hj0 : j = 0 := by omega
        rw [hj0, dropBy_zero]
        exact h0

lemma move_block_game_down (bd : Board) (blk : Block) :
    GameEnhanced.move_block bd blk 0 1 =
      (if bd.is_valid_position (dropBy blk 1) then (dropBy blk 1, true) else (blk, false)) := by
  unfold GameEnhanced.move_block
  have h : ({ blk with x := blk.x + 0, y := blk.y + 1 } : Block) = dropBy blk 1 := by
    simp [dropBy]
  rw [h]

/-- The game.py hard-drop loop stops one row above the first invalid
offset `n`, having performed `n - 1` successful moves. -/
lemma hardDropGAux_spec (bd : Board) :
    ∀ fuel blk rows, bd.is_valid_position blk = true →
      (∃ m, m ≤ fuel ∧ bd.is_valid_position (dropBy blk m) = false) →
      ∃ n, 1 ≤ n ∧
        GameEnhanced.hardDropAux bd fuel blk rows = (dropBy blk (n - 1), rows + (n - 1)) ∧
        bd.is_valid_position (dropBy blk n) = false ∧
        ∀ j, j < n → bd.is_valid_position (dropBy blk j) = true := by
  intro fuel
  induction fuel with
  | zero =>
    intro blk rows h0 hex
    obtain ⟨m, hm, hinv⟩ := hex
    exfalso
    have hm0 : m = 0 := by omega
    rw [hm0, dropBy_zero, h0] at hinv
    simp at hinv
  | succ fu ih =>
    intro blk rows h0 hex
    obtain ⟨m, hm, hinv⟩ := hex
    by_cases hval : bd.is_valid_position (dropBy blk 1) = true
    · have hstep : GameEnhanced.hardDropAux bd (fu + 1) blk rows =
          GameEnhanced.hardDropAux bd fu (dropBy blk 1) (rows + 1) := by
        rw [GameEnhanced.hardDropAux, move_block_game_down, if_pos hval]
        simp
      have hm0 : m ≠ 0 := by
        intro h
        rw [h, dropBy_zero, h0] at hinv
        simp at hinv
      have hm1 : m ≠ 1 := by
        intro h
        rw [h, hval] at hinv
        simp at hinv
      have hrec := ih (dropBy blk 1) (rows + 1) hval
        ⟨m - 1, by omega, by
          rw [dropBy_dropBy, show 1 + (m - 1) = m by omega]
          exact hinv⟩
      obtain ⟨n', h1', heq', hinv', hall'⟩ := hrec
      refine ⟨n' + 1, by omega, ?_, ?_, ?_⟩
      · rw [hstep, heq', dropBy_dropBy]
        congr 1
        · congr 1
          omega
        · omega
      · rw [show n' + 1 = 1 + n' by omega, ← dropBy_dropBy]
        exact hinv'
      · intro j hj
        cases j with
        | zero => rw [dropBy_zero]; exact h0
        | succ j' =>
          rw [show j' + 1 = 1 + j' by omega, ← dropBy_dropBy]
          exact hall' j' (by omega)
    · have hval' : bd.is_valid_position (dropBy blk 1) = false := by
        cases h : bd.is_valid_position (dropBy blk 1)
        · rfl
        · exact absurd h hval
      have hstep : GameEnhanced.hardDropAux bd (fu + 1) blk rows = (blk, rows) := by
        rw [GameEnhanced.hardDropAux, move_block_game_down]
        rw [if_neg (by rw [hval']; exact Bool.false_ne_true)]
      refine ⟨1, le_refl 1, ?_, hval', ?_⟩
      · rw [hstep]
        simp [dropBy_zero]
      · intro j hj
        have hj0 : j = 0 := by omega
        rw [hj0, dropBy_zero]
        exact h0

/-- Claim C5: starting from a valid position, hard drop performs downward
moves until the first failure, resting the block where its position is
valid while one row further down is invalid; `n - 1` is both the number
of successful moves and the reported drop distance; battle-mode hard drop
then locks immediately, crediting `distance * SCORE_HARD_DROP`. The
hypothesis `m` exhibits an invalid offset within the fuel bound (any
non-empty block below the floor gives one). -/
theorem C5_hard_drop (bd : Board) (blk : Block) (fuel m : Nat)
    (h0 : bd.is_valid_position blk = true)
    (hm : bd.is_valid_position (dropBy blk m) = false)
    (hmf : m ≤ fuel) :
    ∃ n, 1 ≤ n ∧ n ≤ m ∧
      bd.is_valid_position (dropBy blk (n - 1)) = true ∧
      bd.is_valid_position (dropBy blk n) = false ∧
      GameEnhanced.hard_drop bd blk fuel = (dropBy blk (n - 1), n - 1) ∧
      ∀ (p opp : BattlePlayer) (gaps : Nat → Nat) (puRoll : Option BattlePowerUpType)
        (fresh nn : Block), p.current_block = some blk → p.board = bd →
        BattleGame.hard_drop p opp fuel gaps puRoll fresh nn =
          BattleGame.lock_block
            { p with current_block := some (dropBy blk (n - 1)),
                     score := p.score + ((n : Int) - 1) * (SCORE_HARD_DROP : Int) }
            opp gaps puRoll fresh nn := by
  obtain ⟨n, h1, heq, hinv, hall⟩ := hardDropAux_spec bd fuel blk 0 h0 ⟨m, hmf, hm⟩
  have hnm : n ≤ m := by
    by_contra hc
    push_neg at hc
    rw [hall m hc] at hm
    simp at hm
  refine ⟨n, h1, hnm, hall (n - 1) (by omega), hinv, ?_, ?_⟩
  · obtain ⟨n2, h12, heq2, hinv2, hall2⟩ := hardDropGAux_spec bd fuel blk 0 h0 ⟨m, hmf, hm⟩
    have hn : n2 = n := by
      by_contra hne
      rcases Nat.lt_or_ge n2 n with h | h
      · rw [hall n2 h] at hinv2
        simp at hinv2
      · have hlt : n < n2 := by omega
        rw [hall2 n hlt] at hinv
        simp at hinv
    rw [hn] at heq2
    rw [GameEnhanced.hard_drop, heq2]
    simp
  · intro p opp gaps puRoll fresh nn hcur hb
    have hblk2 : ({ (dropBy blk n) with y := (dropBy blk n).y - 1 } : Block) =
        dropBy blk (n - 1) := by
      simp only [dropBy, Block.mk.injEq, true_and, and_true]
      omega
    have hscore : (((0 + n : Nat) : Int) - 1) = (n : Int) - 1 := by omega
    simp only [BattleGame.hard_drop, hcur]
    rw [hb, heq]
    dsimp only
    rw [hblk2, hscore]

/-- Witness for C5: an O piece dropped on an empty 2×3 board. -/
theorem C5_hard_drop_witness :
    ∃ n, 1 ≤ n ∧ n ≤ 2 ∧
      (Board.create 2 3).is_valid_position (dropBy oPiece (n - 1)) = true ∧
      (Board.create 2 3).is_valid_position (dropBy oPiece n) = false ∧
      GameEnhanced.hard_drop (Board.create 2 3) oPiece 10 = (dropBy oPiece (n - 1), n - 1) ∧
      ∀ (p opp : BattlePlayer) (gaps : Nat → Nat) (puRoll : Option BattlePowerUpType)
        (fresh nn : Block), p.current_block = some oPiece → p.board = Board.create 2 3 →
        BattleGame.hard_drop p opp 10 gaps puRoll fresh nn =
          BattleGame.lock_block
            { p with current_block := some (dropBy oPiece (n - 1)),
                     score := p.score + ((n : Int) - 1) * (SCORE_HARD_DROP : Int) }
            opp gaps puRoll fresh nn :=
  C5_hard_drop (Board.create 2 3) oPiece 10 2 (by decide) (by decide) (by decide)

lemma find_first {α : Type} (p : α → Bool) :
    ∀ (l : List α) (a : α), l.find? p = some a →
      ∃ l1 l2, l = l1 ++ a :: l2 ∧ (∀ x ∈ l1, p x = false) ∧ p a = true := by
  intro l
  induction l with
  | nil =>
    intro a h
    simp at h
  | cons b t ih =>
    intro a h
    by_cases hb : p b = true
    · rw [List.find?_cons_of_pos _ hb] at h
      obtain rfl : b = a := by injection h
      exact ⟨[], t, rfl, by simp, hb⟩
    · have hb' : p b = false := by
        cases hp : p b
        · rfl
        · exact absurd hp hb
      rw [List.find?_cons_of_neg _ (by rw [hb']; exact Bool.false_ne_true)] at h
      obtain ⟨l1, l2, hsplit, hl1, hpa⟩ := ih a h
      refine ⟨b :: l1, l2, by rw [hsplit]; rfl, ?_, hpa⟩
      intro x hx
      rcases List.mem_cons.mp hx with hxb | hxl
      · rw [hxb]; exact hb'
      · exact hl1 x hxl

lemma applyKick_zero (b : Block) : BattleGame.applyKick b (0, 0) = b := by
  simp [BattleGame.applyKick]

/-- Claim C6: rotation with wall kicks is atomic on failure — returning
false leaves the block's rotation index and position exactly as before —
and deterministic on success: the result is the rotated shape at the
first offset of the fixed kick list that yields a valid position (for the
battle list, and for game.py's plain-position-then-kick-list order). -/
theorem C6_rotation (p : BattlePlayer) (blk : Block) (cw : Bool)
    (bd : Board) (gblk : Block) (hcur : p.current_block = some blk) :
    ((BattleGame.rotate_block p cw).2 = false → (BattleGame.rotate_block p cw).1 = p) ∧
    ((BattleGame.rotate_block p cw).2 = true →
      ∃ l1 k l2, BattleGame.KICKS_BATTLE = l1 ++ k :: l2 ∧
        (∀ k' ∈ l1, p.board.is_valid_position
            (BattleGame.applyKick (if cw then blk.rotate_cw else blk.rotate_ccw) k') = false) ∧
        p.board.is_valid_position
          (BattleGame.applyKick (if cw then blk.rotate_cw else blk.rotate_ccw) k) = true ∧
        (BattleGame.rotate_block p cw).1.current_block =
          some (BattleGame.applyKick (if cw then blk.rotate_cw else blk.rotate_ccw) k) ∧
        (BattleGame.rotate_block p cw).1.board = p.board) ∧
    ((GameEnhanced.rotate_block bd gblk cw).2 = false →
      (GameEnhanced.rotate_block bd gblk cw).1 = gblk) ∧
    ((GameEnhanced.rotate_block bd gblk cw).2 = true →
      ∃ l1 k l2, ((0, 0) :: GameEnhanced.WALL_KICKS : List (Int × Int)) = l1 ++ k :: l2 ∧
        (∀ k' ∈ l1, bd.is_valid_position
            (BattleGame.applyKick (if cw then gblk.rotate_cw else gblk.rotate_ccw) k') = false) ∧
        bd.is_valid_position
          (BattleGame.applyKick (if cw then gblk.rotate_cw else gblk.rotate_ccw) k) = true ∧
        (GameEnhanced.rotate_block bd gblk cw).1 =
          BattleGame.applyKick (if cw then gblk.rotate_cw else gblk.rotate_ccw) k) := by
  refine ⟨?_, ?_, ?_, ?_⟩
  · intro hfail
    simp only [BattleGame.rotate_block, hcur] at hfail ⊢
    rcases hfind : BattleGame.KICKS_BATTLE.find? (fun k =>
        p.board.is_valid_position (BattleGame.applyKick
          (if cw then blk.rotate_cw else blk.rotate_ccw) k)) with _ | k
    · rfl
    · rw [hfind] at hfail
      simp at hfail
  · intro hsucc
    simp only [BattleGame.rotate_block, hcur] at hsucc ⊢
    rcases hfind : BattleGame.KICKS_BATTLE.find? (fun k =>
        p.board.is_valid_position (BattleGame.applyKick
          (if cw then blk.rotate_cw else blk.rotate_ccw) k)) with _ | k
    · rw [hfind] at hsucc
      simp at hsucc
    · obtain ⟨l1, l2, hsplit, hfailall, hk⟩ := find_first _ _ _ hfind
      refine ⟨l1, k, l2, hsplit, ?_, by simpa using hk, ?_, ?_⟩
      · intro k' hk'
        simpa using hfailall k' hk'
      · rfl
      · rfl
  · intro hfail
    simp only [GameEnhanced.rotate_block] at hfail ⊢
    by_cases hv : bd.is_valid_position (if cw then gblk.rotate_cw else gblk.rotate_ccw) = true
    · rw [if_pos hv] at hfail
      simp at hfail
    · have hv' : bd.is_valid_position
          (if cw then gblk.rotate_cw else gblk.rotate_ccw) = false := by
        cases hb : bd.is_valid_position (if cw then gblk.rotate_cw else gblk.rotate_ccw)
        · rfl
        · exact absurd hb hv
      rw [if_neg (by rw [hv']; exact Bool.false_ne_true)] at hfail ⊢
      rcases hfind : GameEnhanced.WALL_KICKS.find? (fun k =>
          bd.is_valid_position (BattleGame.applyKick
            (if cw then gblk.rotate_cw else gblk.rotate_ccw) k)) with _ | k
      · cases cw with
        | false => rfl
        | true => rfl
      · rw [hfind] at hfail
        simp at hfail
  · intro hsucc
    simp only [GameEnhanced.rotate_block] at hsucc ⊢
    by_cases hv : bd.is_valid_position (if cw then gblk.rotate_cw else gblk.rotate_ccw) = true
    · refine ⟨[], (0, 0), GameEnhanced.WALL_KICKS, rfl, by simp, ?_, ?_⟩
      · rw [applyKick_zero]
        exact hv
      · rw [if_pos hv, applyKick_zero]
    · have hv' : bd.is_valid_position
          (if cw then gblk.rotate_cw else gblk.rotate_ccw) = false := by
        cases hb : bd.is_valid_position (if cw then gblk.rotate_cw else gblk.rotate_ccw)
        · rfl
        · exact absurd hb hv
      rw [hv'] at hsucc ⊢
      rw [if_neg (by simp)] at hsucc
      rcases hfind : GameEnhanced.WALL_KICKS.find? (fun k =>
          bd.is_valid_position (BattleGame.applyKick
            (if cw then gblk.rotate_cw else gblk.rotate_ccw) k)) with _ | k
      · rw [hfind] at hsucc
        simp at hsucc
      · obtain ⟨l1, l2, hsplit, hfailall, hk⟩ := find_first _ _ _ hfind
        refine ⟨(0, 0) :: l1, k, l2, by rw [hsplit]; rfl, ?_, by simpa using hk, ?_⟩
        · intro k' hk'
          rcases List.mem_cons.mp hk' with hk0 | hkl
          · rw [hk0, applyKick_zero]
            exact hv'
          · simpa using hfailall k' hkl
        · simp

/-- Witness for C6: a vertical I piece in a 1-wide battle board (all kicks
fail) and an O piece on an empty 2×3 game board. -/
theorem C6_rotation_witness :
    ((BattleGame.rotate_block pC6 true).2 = false →
      (BattleGame.rotate_block pC6 true).1 = pC6) ∧
    ((BattleGame.rotate_block pC6 true).2 = true →
      ∃ l1 k l2, BattleGame.KICKS_BATTLE = l1 ++ k :: l2 ∧
        (∀ k' ∈ l1, pC6.board.is_valid_position
            (BattleGame.applyKick
              (if true then iPieceVert.rotate_cw else iPieceVert.rotate_ccw) k') = false) ∧
        pC6.board.is_valid_position
          (BattleGame.applyKick
            (if true then iPieceVert.rotate_cw else iPieceVert.rotate_ccw) k) = true ∧
        (BattleGame.rotate_block pC6 true).1.current_block =
          some (BattleGame.applyKick
            (if true then iPieceVert.rotate_cw else iPieceVert.rotate_ccw) k) ∧
        (BattleGame.rotate_block pC6 true).1.board = pC6.board) ∧
    ((GameEnhanced.rotate_block (Board.create 2 3) oPiece true).2 = false →
      (GameEnhanced.rotate_block (Board.create 2 3) oPiece true).1 = oPiece) ∧
    ((GameEnhanced.rotate_block (Board.create 2 3) oPiece true).2 = true →
      ∃ l1 k l2, ((0, 0) :: GameEnhanced.WALL_KICKS : List (Int × Int)) = l1 ++ k :: l2 ∧
        (∀ k' ∈ l1, (Board.create 2 3).is_valid_position
            (BattleGame.applyKick
              (if true then oPiece.rotate_cw else oPiece.rotate_ccw) k') = false) ∧
        (Board.create 2 3).is_valid_position
          (BattleGame.applyKick
            (if true then oPiece.rotate_cw else oPiece.rotate_ccw) k) = true ∧
        (GameEnhanced.rotate_block (Board.create 2 3) oPiece true).1 =
          BattleGame.applyKick
            (if true then oPiece.rotate_cw else oPiece.rotate_ccw) k) :=
  C6_rotation pC6 iPieceVert true (Board.create 2 3) oPiece (by decide)

/-- Counterexample for C7 as stated: an on-ground O piece on an empty 3×2
battle board moves right successfully, the destination is still grounded,
and the lock-delay timer keeps its old value `3` instead of being reset
to zero. -/
theorem C7_counterexample :
    pC7.is_on_ground = true ∧
    (BattleGame.move_block pC7 1 0).2 = true ∧
    (BattleGame.move_block pC7 1 0).1.lock_timer ≠ 0 := by
  refine ⟨rfl, by decide, by decide⟩

/-- Claim C7 (amended): while the piece is on-ground, every successful
rotation and every successful downward move resets the lock-delay timer
to zero; a successful horizontal move re-checks whether the piece can now
fall — if it can, the on-ground flag is cleared and the timer reset,
otherwise the flag and timer are left unchanged (the code does not reset
the timer for a horizontal move that stays grounded). game.py's
`_check_ground_after_move` performs the same conditional reset. -/
theorem C7_lock_delay_reset (p : BattlePlayer) (blk : Block) (dx : Int)
    (bd : Board) (gblk : Block) (lt : Rat)
    (hcur : p.current_block = some blk) :
    (∀ cw, (BattleGame.rotate_block p cw).2 = true →
      (BattleGame.rotate_block p cw).1.lock_timer = 0) ∧
    ((BattleGame.move_block p 0 1).2 = true →
      (BattleGame.move_block p 0 1).1.lock_timer = 0) ∧
    (dx ≠ 0 → (BattleGame.move_block p dx 0).2 = true →
      (if p.board.is_valid_position { blk with
          x := blk.x + (if BattleGame.is_controls_reversed p ∧ dx ≠ 0 then -dx else dx),
          y := blk.y + 1 } then
        (BattleGame.move_block p dx 0).1.is_on_ground = false ∧
        (BattleGame.move_block p dx 0).1.lock_timer = 0
       else
        (BattleGame.move_block p dx 0).1.is_on_ground = p.is_on_ground ∧
        (BattleGame.move_block p dx 0).1.lock_timer = p.lock_timer)) ∧
    (GameEnhanced.check_ground_after_move bd (some gblk) true lt =
      (if bd.is_valid_position { gblk with y := gblk.y + 1 } then (false, 0) else (true, lt))) := by
  refine ⟨?_, ?_, ?_, ?_⟩
  · intro cw hsucc
    simp only [BattleGame.rotate_block, hcur] at hsucc ⊢
    rcases hfind : BattleGame.KICKS_BATTLE.find? (fun k =>
        p.board.is_valid_position (BattleGame.applyKick
          (if cw then blk.rotate_cw else blk.rotate_ccw) k)) with _ | k
    · rw [hfind] at hsucc
      simp at hsucc
    · rfl
  · intro hsucc
    cases hval : p.board.is_valid_position { blk with y := blk.y + 1 } with
    | false =>
      simp [BattleGame.move_block, hcur, hval] at hsucc
    | true =>
      simp [BattleGame.move_block, hcur, hval]
  · intro hdx hsucc
    cases hrev : BattleGame.is_controls_reversed p with
    | false =>
      cases hmv : p.board.is_valid_position { blk with x := blk.x + dx } with
      | false =>
        simp [BattleGame.move_block, hcur, hrev, hmv] at hsucc
      | true =>
        cases hbelow : p.board.is_valid_position
            { blk with x := blk.x + dx, y := blk.y + 1 } with
        | false =>
          simp [BattleGame.move_block, hcur, hrev, hdx, hmv, hbelow]
        | true =>
          simp [BattleGame.move_block, hcur, hrev, hdx, hmv, hbelow]
    | true =>
      cases hmv : p.board.is_valid_position { blk with x := blk.x + -dx } with
      | false =>
        simp [BattleGame.move_block, hcur, hrev, hdx, hmv] at hsucc
      | true =>
        cases hbelow : p.board.is_valid_position
            { blk with x := blk.x + -dx, y := blk.y + 1 } with
        | false =>
          simp [BattleGame.move_block, hcur, hrev, hdx, hmv, hbelow]
        | true =>
          simp [BattleGame.move_block, hcur, hrev, hdx, hmv, hbelow]
  · simp only [GameEnhanced.check_ground_after_move]
    rw [if_neg (by simp)]

/-- Witness for the amended C7 at the concrete grounded player. -/
theorem C7_lock_delay_reset_witness :
    (∀ cw, (BattleGame.rotate_block pC7 cw).2 = true →
      (BattleGame.rotate_block pC7 cw).1.lock_timer = 0) ∧
    ((BattleGame.move_block pC7 0 1).2 = true →
      (BattleGame.move_block pC7 0 1).1.lock_timer = 0) ∧
    ((1 : Int) ≠ 0 → (BattleGame.move_block pC7 1 0).2 = true →
      (if pC7.board.is_valid_position { oPiece with
          x := oPiece.x + (if BattleGame.is_controls_reversed pC7 ∧ (1 : Int) ≠ 0
            then -(1 : Int) else 1),
          y := oPiece.y + 1 } then
        (BattleGame.move_block pC7 1 0).1.is_on_ground = false ∧
        (BattleGame.move_block pC7 1 0).1.lock_timer = 0
       else
        (BattleGame.move_block pC7 1 0).1.is_on_ground = pC7.is_on_ground ∧
        (BattleGame.move_block pC7 1 0).1.lock_timer = pC7.lock_timer)) ∧
    (GameEnhanced.check_ground_after_move (Board.create 3 2) (some oPiece) true 5 =
      (if (Board.create 3 2).is_valid_position { oPiece with y := oPiece.y + 1 }
        then (false, 0) else (true, 5))) :=
  C7_lock_delay_reset pC7 oPiece 1 (Board.create 3 2) oPiece 5 (by decide)

/-- Counterexample for C8 as stated: with a 10-wide board and an O piece
(2-wide shape matrix) queued as next, `GameEnhanced.spawn_new_block`
places the piece at `x = 10 // 2 - 2 = 3`, not at the claimed
`(width - shape_width) // 2 = 4`. -/
theorem C8_counterexample :
    (GameEnhanced.spawn_new_block gC8 oPiece false false).current_block.map
      (fun b => b.x) = some 3 ∧
    Int.fdiv ((gC8.board.width : Int) -
      ((oPiece.shape.getD oPiece.rotation []).getD 0 []).length) 2 = 4 ∧
    (3 : Int) ≠ 4 := by
  refine ⟨by decide, by decide, by decide⟩

/-- Claim C8 (amended): at every battle spawn the promoted piece is placed
with rotation 0, `y = 0` and `x = (width - shape_width) // 2` computed
from its current rotation matrix, the new next block is recorded, and on
a successful spawn the timers, ground flag are reset and hold re-enabled;
the enhanced game's spawn instead uses the fixed column
`x = width // 2 - 2` (independent of the shape, which is what the
counterexample forces), sets `y = 0`, leaves the promoted piece's
rotation index untouched, and always resets hold, ground flag and lock
timer. -/
theorem C8_spawn (p : BattlePlayer) (puRoll : Option BattlePowerUpType)
    (fresh nn nb : Block) (g : GameEnhanced) (gen : Block) (puRoll2 ghost : Bool)
    (gnb : Block) (hnb : p.next_block = some nb) (hgnb : g.next_block = some gnb) :
    (BattleGame.spawn_block p puRoll fresh nn).1.current_block =
      some { nb with
        x := Int.fdiv ((p.board.width : Int) -
          ((nb.shape.getD nb.rotation []).getD 0 []).length) 2,
        y := 0, rotation := 0 } ∧
    (BattleGame.spawn_block p puRoll fresh nn).1.next_block = some nn ∧
    ((BattleGame.spawn_block p puRoll fresh nn).2 = true →
      (BattleGame.spawn_block p puRoll fresh nn).1.fall_timer = 0 ∧
      (BattleGame.spawn_block p puRoll fresh nn).1.lock_timer = 0 ∧
      (BattleGame.spawn_block p puRoll fresh nn).1.is_on_ground = false ∧
      (BattleGame.spawn_block p puRoll fresh nn).1.can_hold = true) ∧
    (GameEnhanced.spawn_new_block g gen puRoll2 ghost).current_block =
      some { gnb with x := ((g.board.width / 2 : Nat) : Int) - 2, y := 0 } ∧
    (GameEnhanced.spawn_new_block g gen puRoll2 ghost).next_block = some gen ∧
    (GameEnhanced.spawn_new_block g gen puRoll2 ghost).can_hold = true ∧
    (GameEnhanced.spawn_new_block g gen puRoll2 ghost).is_on_ground = false ∧
    (GameEnhanced.spawn_new_block g gen puRoll2 ghost).lock_timer = 0 := by
  refine ⟨?_, ?_, ?_, ?_, ?_, ?_, ?_, ?_⟩
  · simp only [BattleGame.spawn_block, hnb, Option.getD_some]
    split <;> rfl
  · simp only [BattleGame.spawn_block, hnb, Option.getD_some]
    split <;> rfl
  · intro hok
    simp only [BattleGame.spawn_block, hnb, Option.getD_some] at hok ⊢
    split at hok
    · simp at hok
    · rename_i h
      rw [if_neg h]
      exact ⟨rfl, rfl, rfl, rfl⟩
  · simp only [GameEnhanced.spawn_new_block, hgnb]
  · simp only [GameEnhanced.spawn_new_block, hgnb]
  · simp only [GameEnhanced.spawn_new_block, hgnb]
  · simp only [GameEnhanced.spawn_new_block, hgnb]
  · simp only [GameEnhanced.spawn_new_block, hgnb]

/-- Witness for the amended C8 at concrete battle and game states with an
O piece queued as next on 10×20 boards. -/
theorem C8_spawn_witness :
    (BattleGame.spawn_block pC8 none oPiece oPiece).1.current_block =
      some { oPiece with
        x := Int.fdiv ((pC8.board.width : Int) -
          ((oPiece.shape.getD oPiece.rotation []).getD 0 []).length) 2,
        y := 0, rotation := 0 } ∧
    (BattleGame.spawn_block pC8 none oPiece oPiece).1.next_block = some oPiece ∧
    ((BattleGame.spawn_block pC8 none oPiece oPiece).2 = true →
      (BattleGame.spawn_block pC8 none oPiece oPiece).1.fall_timer = 0 ∧
      (BattleGame.spawn_block pC8 none oPiece oPiece).1.lock_timer = 0 ∧
      (BattleGame.spawn_block pC8 none oPiece oPiece).1.is_on_ground = false ∧
      (BattleGame.spawn_block pC8 none oPiece oPiece).1.can_hold = true) ∧
    (GameEnhanced.spawn_new_block gC8 oPiece false false).current_block =
      some { oPiece with x := ((gC8.board.width / 2 : Nat) : Int) - 2, y := 0 } ∧
    (GameEnhanced.spawn_new_block gC8 oPiece false false).next_block = some oPiece ∧
    (GameEnhanced.spawn_new_block gC8 oPiece false false).can_hold = true ∧
    (GameEnhanced.spawn_new_block gC8 oPiece false false).is_on_ground = false ∧
    (GameEnhanced.spawn_new_block gC8 oPiece false false).lock_timer = 0 :=
  C8_spawn pC8 none oPiece oPiece oPiece gC8 oPiece false false oPiece
    (by decide) (by decide)

/-- When `line_score k * mult` is an integer `c`, the `int()` truncation
in the scoring step is exact. -/
lemma apply_line_score_exact (s : Int) (lv k : Nat) (mult : Rat) (hk : 0 < k)
    (c : Int) (hc : (GameEnhanced.line_score k : Rat) * mult = (c : Rat)) :
    ((GameEnhanced.apply_line_score s lv mult k - s : Int) : Rat) =
      (GameEnhanced.line_score k : Rat) * (lv : Rat) * mult := by
  unfold GameEnhanced.apply_line_score
  rw [if_pos hk]
  have h1 : (GameEnhanced.line_score k : Rat) * (lv : Rat) * mult = ((c * lv : Int) : Rat) := by
    calc (GameEnhanced.line_score k : Rat) * (lv : Rat) * mult
        = ((GameEnhanced.line_score k : Rat) * mult) * (lv : Rat) := by ring
      _ = (c : Rat) * (lv : Rat) := by rw [hc]
      _ = ((c * lv : Int) : Rat) := by push_cast; ring
  rw [h1, Int.floor_intCast]
  push_cast
  ring

/-- Claim C9: the per-`k` line-clear bases are 100/300/500/800, strictly
increasing, with the quad bonus exceeding four singles; clearing `k`
lines adds exactly `base(k) × level × mode multiplier` to the score (the
`int()` truncation never loses anything for the three mode multipliers
0.8, 1.0 and 2.0). -/
theorem C9_scoring (s : Int) (lv : Nat) (m : GameMode) (k : Nat)
    (hk1 : 1 ≤ k) (hk4 : k ≤ 4) :
    SCORE_SINGLE_LINE < SCORE_DOUBLE_LINE ∧
    SCORE_DOUBLE_LINE < SCORE_TRIPLE_LINE ∧
    SCORE_TRIPLE_LINE < SCORE_QUAD_LINE ∧
    4 * SCORE_SINGLE_LINE < SCORE_QUAD_LINE ∧
    ((GameEnhanced.apply_line_score s lv (score_multiplier m) k - s : Int) : Rat) =
      (GameEnhanced.line_score k : Rat) * (lv : Rat) * score_multiplier m := by
  refine ⟨by decide, by decide, by decide, by decide, ?_⟩
  interval_cases k
  · cases m
    · exact apply_line_score_exact s lv 1 _ (by norm_num) 80
        (by rw [show GameEnhanced.line_score 1 = 100 from rfl]; norm_num [score_multiplier])
    · exact apply_line_score_exact s lv 1 _ (by norm_num) 100
        (by rw [show GameEnhanced.line_score 1 = 100 from rfl]; norm_num [score_multiplier])
    · exact apply_line_score_exact s lv 1 _ (by norm_num) 200
        (by rw [show GameEnhanced.line_score 1 = 100 from rfl]; norm_num [score_multiplier])
  · cases m
    · exact apply_line_score_exact s lv 2 _ (by norm_num) 240
        (by rw [show GameEnhanced.line_score 2 = 300 from rfl]; norm_num [score_multiplier])
    · exact apply_line_score_exact s lv 2 _ (by norm_num) 300
        (by rw [show GameEnhanced.line_score 2 = 300 from rfl]; norm_num [score_multiplier])
    · exact apply_line_score_exact s lv 2 _ (by norm_num) 600
        (by rw [show GameEnhanced.line_score 2 = 300 from rfl]; norm_num [score_multiplier])
  · cases m
    · exact apply_line_score_exact s lv 3 _ (by norm_num) 400
        (by rw [show GameEnhanced.line_score 3 = 500 from rfl]; norm_num [score_multiplier])
    · exact apply_line_score_exact s lv 3 _ (by norm_num) 500
        (by rw [show GameEnhanced.line_score 3 = 500 from rfl]; norm_num [score_multiplier])
    · exact apply_line_score_exact s lv 3 _ (by norm_num) 1000
        (by rw [show GameEnhanced.line_score 3 = 500 from rfl]; norm_num [score_multiplier])
  · cases m
    · exact apply_line_score_exact s lv 4 _ (by norm_num) 640
        (by rw [show GameEnhanced.line_score 4 = 800 from rfl]; norm_num [score_multiplier])
    · exact apply_line_score_exact s lv 4 _ (by norm_num) 800
        (by rw [show GameEnhanced.line_score 4 = 800 from rfl]; norm_num [score_multiplier])
    · exact apply_line_score_exact s lv 4 _ (by norm_num) 1600
        (by rw [show GameEnhanced.line_score 4 = 800 from rfl]; norm_num [score_multiplier])

/-- Witness for C9: a quad clear at level 2 in casual mode. -/
theorem C9_scoring_witness :
    SCORE_SINGLE_LINE < SCORE_DOUBLE_LINE ∧
    SCORE_DOUBLE_LINE < SCORE_TRIPLE_LINE ∧
    SCORE_TRIPLE_LINE < SCORE_QUAD_LINE ∧
    4 * SCORE_SINGLE_LINE < SCORE_QUAD_LINE ∧
    ((GameEnhanced.apply_line_score 0 2 (score_multiplier GameMode.casual) 4 - 0 : Int) : Rat) =
      (GameEnhanced.line_score 4 : Rat) * (2 : Rat) * score_multiplier GameMode.casual :=
  C9_scoring 0 2 GameMode.casual 4 (by decide) (by decide)

lemma mem_set_cases {α : Type} : ∀ (l : List α) (i : Nat) (a x : α),
    x ∈ l.set i a → x = a ∨ x ∈ l := by
  intro l
  induction l with
  | nil =>
    intro i a x hx
    simp at hx
  | cons b t ih =>
    intro i a x hx
    cases i with
    | zero =>
      rw [List.set_cons_zero] at hx
      rcases List.mem_cons.mp hx with h | h
      · exact Or.inl h
      · exact Or.inr (List.mem_cons.mpr (Or.inr h))
    | succ i' =>
      rw [List.set_cons_succ] at hx
      rcases List.mem_cons.mp hx with h | h
      · exact Or.inr (by simp [h])
      · rcases ih i' a x h with h' | h'
        · exact Or.inl h'
        · exact Or.inr (by simp [h'])

/-- Setting one cell of one row keeps every row length and the row
count. -/
lemma set_row_preserves (g : List Row) (H W y x : Nat) (v : Option Color)
    (hlen : g.length = H) (hrows : ∀ r ∈ g, r.length = W) (hy : y < H) :
    (g.set y ((g.getD y []).set x v)).length = H ∧
    ∀ r ∈ g.set y ((g.getD y []).set x v), r.length = W := by
  constructor
  · rw [List.length_set]
    exact hlen
  · intro r hr
    rcases mem_set_cases _ _ _ _ hr with h | h
    · rw [h, List.length_set]
      have hy' : y < g.length := by omega
      rw [List.getD_eq_getElem _ _ hy']
      exact hrows _ (List.getElem_mem _)
    · exact hrows r h

lemma place_block_WF (bd : Board) (blk : Block) (hWF : bd.WF) :
    (bd.place_block blk).WF ∧ (bd.place_block blk).width = bd.width ∧
    (bd.place_block blk).height = bd.height := by
  obtain ⟨hlen, hrows⟩ := hWF
  have key : ∀ (cells : List (Int × Int)) (g : List Row),
      g.length = bd.height → (∀ r ∈ g, r.length = bd.width) →
      (cells.foldl (fun g c =>
        if 0 ≤ c.2 ∧ c.2 < (bd.height : Int) ∧ 0 ≤ c.1 ∧ c.1 < (bd.width : Int) then
          g.set c.2.toNat ((g.getD c.2.toNat []).set c.1.toNat (some blk.color))
        else g) g).length = bd.height ∧
      ∀ r ∈ cells.foldl (fun g c =>
        if 0 ≤ c.2 ∧ c.2 < (bd.height : Int) ∧ 0 ≤ c.1 ∧ c.1 < (bd.width : Int) then
          g.set c.2.toNat ((g.getD c.2.toNat []).set c.1.toNat (some blk.color))
        else g) g, r.length = bd.width := by
    intro cells
    induction cells with
    | nil =>
      intro g h1 h2
      exact ⟨h1, h2⟩
    | cons c cs ih =>
      intro g h1 h2
      rw [List.foldl_cons]
      by_cases hc : 0 ≤ c.2 ∧ c.2 < (bd.height : Int) ∧ 0 ≤ c.1 ∧ c.1 < (bd.width : Int)
      · rw [if_pos hc]
        have hy : c.2.toNat < bd.height := by omega
        obtain ⟨ha, hb⟩ := set_row_preserves g bd.height bd.width c.2.toNat c.1.toNat
          (some blk.color) h1 h2 hy
        exact ih _ ha hb
      · rw [if_neg hc]
        exact ih g h1 h2
  obtain ⟨h1, h2⟩ := key blk.get_cells bd.grid hlen hrows
  exact ⟨⟨h1, h2⟩, rfl, rfl⟩

lemma clearLinesAux_dims (w : Nat) :
    ∀ fuel g yy c, (∀ r ∈ g, r.length = w) →
      (clearLinesAux w fuel g yy c).1.length = g.length ∧
      ∀ r ∈ (clearLinesAux w fuel g yy c).1, r.length = w := by
  intro fuel
  induction fuel with
  | zero =>
    intro g yy c hg
    exact ⟨rfl, hg⟩
  | succ fu ih =>
    intro g yy c hg
    cases yy with
    | zero => exact ⟨rfl, hg⟩
    | succ y =>
      cases hget : g[y]? with
      | none =>
        have hstep : clearLinesAux w (fu + 1) g (y + 1) c = (g, c) := by
          rw [clearLinesAux, hget]
        rw [hstep]
        exact ⟨rfl, hg⟩
      | some r =>
        by_cases hfull : rowFull r = true
        · have hy : y < g.length := by
            by_contra hcon
            push_neg at hcon
            rw [List.getElem?_eq_none hcon] at hget
            cases hget
          have hstep : clearLinesAux w (fu + 1) g (y + 1) c =
              clearLinesAux w fu (emptyRow w :: g.eraseIdx y) (y + 1) (c + 1) := by
            rw [clearLinesAux, hget]
            simp [hfull]
          rw [hstep]
          have hmem : ∀ r' ∈ emptyRow w :: g.eraseIdx y, r'.length = w := by
            intro r' hr'
            rcases List.mem_cons.mp hr' with h | h
            · rw [h]; exact length_emptyRow w
            · exact hg r' ((List.eraseIdx_sublist g y).subset h)
          obtain ⟨h1, h2⟩ := ih (emptyRow w :: g.eraseIdx y) (y + 1) (c + 1) hmem
          refine ⟨?_, h2⟩
          rw [h1, List.length_cons, List.length_eraseIdx, if_pos hy]
          omega
        · have hfull' : rowFull r = false := by
            cases hb : rowFull r
            · rfl
            · exact absurd hb hfull
          have hstep : clearLinesAux w (fu + 1) g (y + 1) c = clearLinesAux w fu g y c := by
            rw [clearLinesAux, hget]
            simp [hfull']
          rw [hstep]
          exact ih g y c hg

lemma clear_lines_WF (bd : Board) (hWF : bd.WF) :
    (bd.clear_lines).1.WF ∧ (bd.clear_lines).1.width = bd.width ∧
    (bd.clear_lines).1.height = bd.height := by
  obtain ⟨hlen, hrows⟩ := hWF
  obtain ⟨h1, h2⟩ := clearLinesAux_dims bd.width (2 * bd.height + 1) bd.grid bd.height 0 hrows
  exact ⟨⟨by rw [Board.clear_lines]; simpa [hlen] using h1, by rw [Board.clear_lines]; exact h2⟩,
    rfl, rfl⟩

lemma clearBottomAux_dims (w : Nat) :
    ∀ n g c, (∀ r ∈ g, r.length = w) → (n = 0 ∨ 0 < g.length) →
      (clearBottomAux w n g c).1.length = g.length ∧
      ∀ r ∈ (clearBottomAux w n g c).1, r.length = w := by
  intro n
  induction n with
  | zero =>
    intro g c hg _
    exact ⟨rfl, hg⟩
  | succ m ih =>
    intro g c hg hpos
    have hgl : 0 < g.length := by
      rcases hpos with h | h
      · cases h
      · exact h
    rw [clearBottomAux]
    have hlen : (emptyRow w :: g.dropLast).length = g.length := by
      rw [List.length_cons, List.length_dropLast]
      omega
    have hrows : ∀ r ∈ emptyRow w :: g.dropLast, r.length = w := by
      intro r hr
      rcases List.mem_cons.mp hr with h | h
      · rw [h]; exact length_emptyRow w
      · exact hg r (List.dropLast_subset _ h)
    obtain ⟨h1, h2⟩ := ih (emptyRow w :: g.dropLast)
      (c + ((g.getLast?.getD []).countP (fun cc => cc.isSome))) hrows
      (Or.inr (by rw [hlen]; exact hgl))
    exact ⟨by rw [h1, hlen], h2⟩

lemma clear_bottom_rows_WF (bd : Board) (n : Nat) (hWF : bd.WF) :
    (bd.clear_bottom_rows n).1.WF ∧ (bd.clear_bottom_rows n).1.width = bd.width ∧
    (bd.clear_bottom_rows n).1.height = bd.height := by
  obtain ⟨hlen, hrows⟩ := hWF
  have hpos : min n bd.height = 0 ∨ 0 < bd.grid.length := by
    rcases Nat.eq_zero_or_pos bd.height with h | h
    · left; omega
    · right; omega
  obtain ⟨h1, h2⟩ := clearBottomAux_dims bd.width (min n bd.height) bd.grid 0 hrows hpos
  exact ⟨⟨by rw [Board.clear_bottom_rows]; simpa [hlen] using h1,
    by rw [Board.clear_bottom_rows]; exact h2⟩, rfl, rfl⟩

lemma clear_area_WF (bd : Board) (cx cy : Int) (radius : Nat) (hWF : bd.WF) :
    (bd.clear_area cx cy radius).1.WF ∧ (bd.clear_area cx cy radius).1.width = bd.width ∧
    (bd.clear_area cx cy radius).1.height = bd.height := by
  obtain ⟨hlen, hrows⟩ := hWF
  have key : ∀ (ds : List (Int × Int)) (gc : List Row × Nat),
      gc.1.length = bd.height → (∀ r ∈ gc.1, r.length = bd.width) →
      (ds.foldl (fun (gc : List Row × Nat) d =>
        let x := cx + d.2
        let y := cy + d.1
        if 0 ≤ x ∧ x < (bd.width : Int) ∧ 0 ≤ y ∧ y < (bd.height : Int) then
          if ((gc.1.getD y.toNat []).getD x.toNat none).isSome then
            (gc.1.set y.toNat ((gc.1.getD y.toNat []).set x.toNat none), gc.2 + 1)
          else gc
        else gc) gc).1.length = bd.height ∧
      ∀ r ∈ (ds.foldl (fun (gc : List Row × Nat) d =>
        let x := cx + d.2
        let y := cy + d.1
        if 0 ≤ x ∧ x < (bd.width : Int) ∧ 0 ≤ y ∧ y < (bd.height : Int) then
          if ((gc.1.getD y.toNat []).getD x.toNat none).isSome then
            (gc.1.set y.toNat ((gc.1.getD y.toNat []).set x.toNat none), gc.2 + 1)
          else gc
        else gc) gc).1, r.length = bd.width := by
    intro ds
    induction ds with
    | nil =>
      intro gc h1 h2
      exact ⟨h1, h2⟩
    | cons d rest ih =>
      intro gc h1 h2
      rw [List.foldl_cons]
      by_cases hc : 0 ≤ cx + d.2 ∧ cx + d.2 < (bd.width : Int) ∧
          0 ≤ cy + d.1 ∧ cy + d.1 < (bd.height : Int)
      · by_cases hocc : ((gc.1.getD (cy + d.1).toNat []).getD (cx + d.2).toNat none).isSome = true
        · have hy : (cy + d.1).toNat < bd.height := by omega
          obtain ⟨ha, hb⟩ := set_row_preserves gc.1 bd.height bd.width
            (cy + d.1).toNat (cx + d.2).toNat none h1 h2 hy
          have hred : (if 0 ≤ cx + d.2 ∧ cx + d.2 < (bd.width : Int) ∧
              0 ≤ cy + d.1 ∧ cy + d.1 < (bd.height : Int) then
              if ((gc.1.getD (cy + d.1).toNat []).getD (cx + d.2).toNat none).isSome then
                (gc.1.set (cy + d.1).toNat
                  ((gc.1.getD (cy + d.1).toNat []).set (cx + d.2).toNat none), gc.2 + 1)
              else gc
            else gc) = (gc.1.set (cy + d.1).toNat
              ((gc.1.getD (cy + d.1).toNat []).set (cx + d.2).toNat none), gc.2 + 1) := by
            rw [if_pos hc, if_pos hocc]
          rw [hred]
          exact ih _ ha hb
        · have hocc' : ((gc.1.getD (cy + d.1).toNat []).getD (cx + d.2).toNat none).isSome
              = false := by
            cases hb : ((gc.1.getD (cy + d.1).toNat []).getD (cx + d.2).toNat none).isSome
            · rfl
            · exact absurd hb hocc
          have hred : (if 0 ≤ cx + d.2 ∧ cx + d.2 < (bd.width : Int) ∧
              0 ≤ cy + d.1 ∧ cy + d.1 < (bd.height : Int) then
              if ((gc.1.getD (cy + d.1).toNat []).getD (cx + d.2).toNat none).isSome then
                (gc.1.set (cy + d.1).toNat
                  ((gc.1.getD (cy + d.1).toNat []).set (cx + d.2).toNat none), gc.2 + 1)
              else gc
            else gc) = gc := by
            rw [if_pos hc, if_neg (by rw [hocc']; exact Bool.false_ne_true)]
          rw [hred]
          exact ih gc h1 h2
      · have hred : (if 0 ≤ cx + d.2 ∧ cx + d.2 < (bd.width : Int) ∧
            0 ≤ cy + d.1 ∧ cy + d.1 < (bd.height : Int) then
            if ((gc.1.getD (cy + d.1).toNat []).getD (cx + d.2).toNat none).isSome then
              (gc.1.set (cy + d.1).toNat
                ((gc.1.getD (cy + d.1).toNat []).set (cx + d.2).toNat none), gc.2 + 1)
            else gc
          else gc) = gc := by
          rw [if_neg hc]
        rw [hred]
        exact ih gc h1 h2
  obtain ⟨h1, h2⟩ := key (areaOffsets radius) (bd.grid, 0) hlen hrows
  exact ⟨⟨h1, h2⟩, rfl, rfl⟩

/-- Claim C10: every board-mutating operation — placing a block, clearing
full lines, clearing the bottom rows, clearing an area, injecting garbage
lines — preserves the board's dimensions: the grid still has `height`
rows of `width` cells each (and hence, the grid being the only cell
storage, no occupied cell exists outside those bounds). -/
theorem C10_dimension_preservation (bd : Board) (blk : Block) (n : Nat)
    (cx cy : Int) (radius : Nat) (p : BattlePlayer) (count : Nat) (gaps : Nat → Nat)
    (hWF : bd.WF) (hpWF : p.board.WF) :
    ((bd.place_block blk).WF ∧ (bd.place_block blk).width = bd.width ∧
      (bd.place_block blk).height = bd.height) ∧
    ((bd.clear_lines).1.WF ∧ (bd.clear_lines).1.width = bd.width ∧
      (bd.clear_lines).1.height = bd.height) ∧
    ((bd.clear_bottom_rows n).1.WF ∧ (bd.clear_bottom_rows n).1.width = bd.width ∧
      (bd.clear_bottom_rows n).1.height = bd.height) ∧
    ((bd.clear_area cx cy radius).1.WF ∧ (bd.clear_area cx cy radius).1.width = bd.width ∧
      (bd.clear_area cx cy radius).1.height = bd.height) ∧
    ((BattleGame.add_garbage_lines p count gaps).board.WF ∧
      (BattleGame.add_garbage_lines p count gaps).board.width = p.board.width ∧
      (BattleGame.add_garbage_lines p count gaps).board.height = p.board.height) := by
  refine ⟨place_block_WF bd blk hWF, clear_lines_WF bd hWF, clear_bottom_rows_WF bd n hWF,
    clear_area_WF bd cx cy radius hWF, ?_⟩
  obtain ⟨h1, h2, h3⟩ := add_garbage_WF p count gaps hpWF
  exact ⟨h1, h2, h3⟩

/-- Witness for C10 at a concrete board, block and garbage injection. -/
theorem C10_dimension_preservation_witness :
    ((wBoardC1.place_block oPiece).WF ∧ (wBoardC1.place_block oPiece).width = wBoardC1.width ∧
      (wBoardC1.place_block oPiece).height = wBoardC1.height) ∧
    ((wBoardC1.clear_lines).1.WF ∧ (wBoardC1.clear_lines).1.width = wBoardC1.width ∧
      (wBoardC1.clear_lines).1.height = wBoardC1.height) ∧
    ((wBoardC1.clear_bottom_rows 2).1.WF ∧
      (wBoardC1.clear_bottom_rows 2).1.width = wBoardC1.width ∧
      (wBoardC1.clear_bottom_rows 2).1.height = wBoardC1.height) ∧
    ((wBoardC1.clear_area 1 1 1).1.WF ∧ (wBoardC1.clear_area 1 1 1).1.width = wBoardC1.width ∧
      (wBoardC1.clear_area 1 1 1).1.height = wBoardC1.height) ∧
    ((BattleGame.add_garbage_lines pC3 2 (fun _ => 0)).board.WF ∧
      (BattleGame.add_garbage_lines pC3 2 (fun _ => 0)).board.width = pC3.board.width ∧
      (BattleGame.add_garbage_lines pC3 2 (fun _ => 0)).board.height = pC3.board.height) :=
  C10_dimension_preservation wBoardC1 oPiece 2 1 1 1 pC3 2 (fun _ => 0)
    (by decide) (by decide)
